import Mathlib

/-!
# ssh-tron: a shallow embedding of the simulation core

The embedding follows `src/tron/game.go`, `src/tron/player.go` and
`src/tron/config.go`.

* Go `int` fields (`Width`, `Height`, `bw`, `bh`, `Kills`, `Deaths`) and
  `time.Duration` (nanoseconds) are `Int`.  Go `int` is taken as 64 bits: the
  counters `Kills` and `Deaths` change by `++`, which wraps around
  (`wrapInt`).
* `uint8` fields (`Player.x`, `Player.y`) and the `Direction` byte are `Nat`
  with explicit `% 256`.
* `Board` is `[][]ID`: a list of columns, `board[x][y]`.  An index out of
  range is a Go run-time panic, modelled by `none`.
* `*Player` is a pointer: the state carries the heap of `Player` objects
  (`players`) and the map `currPlayers` from `ID` to pointer.
* `go g.death(p)` starts a goroutine: `tickBody` records the start in
  `spawned`, and `death` is the action that goroutine performs.
* `rand.Intn` reads the global generator: the raw outputs of the generator
  are a parameter `draws`, and `rand.Intn(n)` reduces the next one modulo `n`.
* The scoreboard, the database and the window are outside the embedding;
  `g.score.compute()`, `g.db.save` and `logf` change no modelled field.
-/

namespace Tron

/-- Cell and player identifier, `type ID uint16`. -/
abbrev ID := Nat

/-- Address of a `Player` object. -/
abbrev Ptr := Nat

/-- Modelled from the spec: the constant `blank` is declared in a file that is
not under src; a cell of a freshly made grid is blank (the interior "starts
blank"), which for a Go slice is the zero value of `ID`. -/
def blank : ID := 0

/-- The largest Go `int` (64 bits). -/
def intMax : Int := 9223372036854775807

/-- The smallest Go `int` (64 bits). -/
def intMin : Int := -9223372036854775808

/-- The value a Go `int` holds after an arithmetic result `n`: two's
complement wrap-around to 64 bits. -/
def wrapInt (n : Int) : Int :=
  (n + 9223372036854775808) % 18446744073709551616 - 9223372036854775808

/-- The grid `type Board [][]ID`, indexed `board[x][y]`. -/
abbrev Board := List (List ID)

/-- Read `b[x][y]`; `none` is the index-out-of-range panic. -/
def Board.get (b : Board) (x y : Nat) : Option ID :=
  match b[x]? with
  | none => none
  | some col => col[y]?

/-- Write `b[x][y] = v`; `none` is the index-out-of-range panic. -/
def Board.set (b : Board) (x y : Nat) (v : ID) : Option Board :=
  match b[x]? with
  | none => none
  | some col => if y < col.length then some (List.set b x (List.set col y v)) else none

/-- Write `b[x][y] = v` with Go `int` indices. -/
def Board.setI (b : Board) (x y : Int) (v : ID) : Option Board :=
  if x < 0 ∨ y < 0 then none else Board.set b x.toNat y.toNat v

/-- The loop `for i := lo; i < lo + n; i++ { body }`, stopping at a panic. -/
def forLoop {σ : Type} (body : Nat → σ → Option σ) : Nat → Nat → σ → Option σ
  | _, 0, s => some s
  | i, n + 1, s =>
    match body i s with
    | none => none
    | some s1 => forLoop body (i + 1) n s1

/-- Direction constants, `dup Direction = iota + 65`. -/
def dup : Nat := 65

/-- Second direction constant. -/
def ddown : Nat := 66

/-- Third direction constant. -/
def dright : Nat := 67

/-- Fourth direction constant. -/
def dleft : Nat := 68

/-- The fields of `Player` the simulation reads and writes (`Name`, `hash`,
`rank`, `index`, `score`, `tdeath`, `playing`, `g` and `logf` are left to the
scoreboard and the display). -/
structure Player where
  id : ID
  x : Nat
  y : Nat
  d : Nat
  nextd : Nat
  dead : Bool
  ready : Bool
  waiting : Bool
  Kills : Int
  Deaths : Int
deriving DecidableEq, Repr

/-- `NewPlayer(id, name)`. -/
def NewPlayer (id : ID) : Player :=
  { id := id, x := 0, y := 0, d := dup, nextd := 0, dead := true, ready := false,
    waiting := false, Kills := 0, Deaths := 0 }

/-- The fields of `Config` the simulation reads. -/
structure Config where
  Width : Int
  Height : Int
  MaxPlayers : Int
  RespawnDelay : Int
deriving DecidableEq, Repr

/-- The state of a `Game`: the embedded `Config`, the fields `h`, `bw`, `bh`
and `board`, the map `currPlayers`, the heap `players` its pointers refer to,
and the `death` goroutines started (`spawned`).  The fields `w`, `db`,
`score`, `allPlayers`, `playerColors`, `gameWindow` and `txtRefresher` belong
to the display, the scoreboard and the database. -/
structure Game where
  config : Config
  h : Int
  bw : Int
  bh : Int
  board : Board
  players : Ptr → Player
  currPlayers : ID → Option Ptr
  spawned : List Ptr

/-- Update the object a pointer refers to. -/
def Game.modifyPlayer (g : Game) (p : Ptr) (f : Player → Player) : Game :=
  { g with players := Function.update g.players p (f (g.players p)) }

/-- The two dimension checks at the head of `NewGame`. -/
def dimCheck (c : Config) : Except String Unit :=
  if c.Height < 32 ∨ c.Height > 255 then
    Except.error "height must be between 32-256"
  else if c.Width < 32 ∨ c.Width > 255 then
    Except.error "width must be between 32-256"
  else Except.ok ()

/-- The conversion `uint8(n)` of a Go `int`. -/
def toUint8 (n : Int) : Nat := (n % 256).toNat

/-- Modelled from the spec: `NewBoard` is declared in a file that is not under
src.  It refuses a width or height below 32 (its `uint8` arguments cannot
exceed 255) and returns a width-by-height grid, indexed `[x][y]`, whose cells
are all blank; the walls are written later by `Game.Play`. -/
def NewBoard (width height : Nat) : Except String Board :=
  if width < 32 ∨ height < 32 then Except.error "board too small"
  else Except.ok (List.replicate width (List.replicate height blank))

/-- The answers of the collaborators `NewGame` consults. -/
structure Env where
  dbFails : Bool
  loadAllFails : Bool

/-- `NewGame(c)`: the heap of `Player` objects is a parameter. -/
def NewGame (c : Config) (env : Env) (heap : Ptr → Player) : Except String Game :=
  match dimCheck c with
  | Except.error e => Except.error e
  | Except.ok _ =>
    if env.dbFails then Except.error "Database error" else
    match NewBoard (toUint8 c.Width) (toUint8 c.Height) with
    | Except.error e => Except.error e
    | Except.ok board =>
      if env.loadAllFails then Except.error "Failed to restore player list" else
      Except.ok
        { config := c, h := c.Height / 2, bw := c.Height, bh := c.Width, board := board,
          players := heap, currPlayers := fun _ => none, spawned := [] }

/-- One iteration of the first wall loop of `Play`. -/
def wallRow (wall : ID) (bh : Int) (w : Nat) (b : Board) : Option Board :=
  match Board.setI b w 0 wall with
  | none => none
  | some b1 => Board.setI b1 w (bh - 1) wall

/-- One iteration of the second wall loop of `Play`. -/
def wallCol (wall : ID) (bw : Int) (h : Nat) (b : Board) : Option Board :=
  match Board.setI b 0 h wall with
  | none => none
  | some b1 => Board.setI b1 (bw - 1) h wall

/-- The wall building of `Game.Play` (before it enters `tick`).  The constant
`wall` is declared in a file that is not under src and is a parameter. -/
def Play (wall : ID) (g : Game) : Option Game :=
  match forLoop (wallRow wall g.bh) 0 g.bw.toNat g.board with
  | none => none
  | some b1 =>
    match forLoop (wallCol wall g.bw) 0 g.bh.toNat b1 with
    | none => none
    | some b2 => some { g with board := b2 }

/-- Something `Game.remove` does that takes time or touches the board. -/
inductive Event where
  | sleep (d : Int)
  | sweep
deriving DecidableEq, Repr

/-- The variable `deathTrail = 1 * time.Second`, in nanoseconds. -/
def deathTrail : Int := 1000000000

/-- One cell of the sweep of `remove`. -/
def sweepCell (id : ID) (w h : Nat) (b : Board) : Option Board :=
  match Board.get b w h with
  | none => none
  | some c => if c = id then Board.set b w h blank else some b

/-- The double loop of `remove` that clears a player off the board. -/
def sweep (g : Game) (p : Ptr) : Option Board :=
  forLoop (fun w b => forLoop (fun h b1 => sweepCell (g.players p).id w h b1) 0 g.bh.toNat b)
    0 g.bw.toNat g.board

/-- `Game.remove(p)`: the final state and, in order, the sleeps and the sweep. -/
def remove (g : Game) (p : Ptr) : Option (Game × List Event) :=
  let g1 := g.modifyPlayer p (fun pl => { pl with waiting := true })
  let ev1 :=
    if g.config.RespawnDelay > deathTrail then [Event.sleep deathTrail]
    else [Event.sleep g.config.RespawnDelay]
  match sweep g1 p with
  | none => none
  | some b =>
    let g2 := { g1 with board := b }
    let ev2 :=
      if g.config.RespawnDelay > deathTrail then
        [Event.sleep (g.config.RespawnDelay - deathTrail)]
      else []
    some (g2.modifyPlayer p (fun pl => { pl with waiting := false }),
      ev1 ++ [Event.sweep] ++ ev2)

/-- `Game.death(p)`. -/
def death (g : Game) (p : Ptr) : Option (Game × List Event) :=
  remove (g.modifyPlayer p (fun pl => { pl with Deaths := wrapInt (pl.Deaths + 1) })) p

/-- Total of the sleeps that come before the sweep in a trace of `remove`. -/
def sleepBeforeSweep : List Event → Int
  | [] => 0
  | Event.sweep :: _ => 0
  | Event.sleep d :: rest => d + sleepBeforeSweep rest

/-- What `gameWindow.Pressed` answers for the four arrow keys. -/
structure Keys where
  left : Bool
  right : Bool
  down : Bool
  up : Bool
deriving DecidableEq, Repr

/-- The direction after the key chain of `tick`. -/
def steer (keys : Keys) (d : Nat) : Nat :=
  if keys.left then dleft
  else if keys.right then dright
  else if keys.down then ddown
  else if keys.up then dup
  else d

/-- The `switch p.d` of `tick` on the `uint8` x coordinate. -/
def moveX (d x : Nat) : Nat :=
  if d = dleft then (x + 255) % 256 else if d = dright then (x + 1) % 256 else x

/-- The `switch p.d` of `tick` on the `uint8` y coordinate. -/
def moveY (d y : Nat) : Nat :=
  if d = dup then (y + 255) % 256 else if d = ddown then (y + 1) % 256 else y

/-- The kill credit of `tick`: `if other, ok := g.currPlayers[id]; ok && other != p`. -/
def creditKill (g : Game) (p : Ptr) (id : ID) : Game :=
  match g.currPlayers id with
  | none => g
  | some other =>
    if other ≠ p then g.modifyPlayer other (fun o => { o with Kills := wrapInt (o.Kills + 1) })
    else g

/-- The body of the player loop of `Game.tick`, for the player at `p`. -/
def tickBody (keys : Keys) (g : Game) (p : Ptr) : Option Game :=
  if (g.players p).dead then some g
  else
    let d := steer keys (g.players p).d
    let g1 := g.modifyPlayer p (fun pl => { pl with d := d, x := moveX d pl.x, y := moveY d pl.y })
    match Board.get g1.board (g1.players p).x (g1.players p).y with
    | none => none
    | some id =>
      if id ≠ blank then
        let g2 := creditKill g1 p id
        let g3 := g2.modifyPlayer p (fun pl => { pl with dead := true })
        some { g3 with spawned := p :: g3.spawned }
      else
        match Board.set g1.board (g1.players p).x (g1.players p).y (g1.players p).id with
        | none => none
        | some b => some { g1 with board := b }

/-- The constant `respawnAttempts`. -/
def respawnAttempts : Nat := 100

/-- The constant `respawnLookahead`. -/
def respawnLookahead : Nat := 15

/-- `rand.Intn(n)` on the raw generator output `r`; it panics for `n <= 0`. -/
def Intn (n : Int) (r : Nat) : Option Nat :=
  if n ≤ 0 then none else some (r % n.toNat)

/-- The lookahead loop of `respawn` with `j` iterations left, standing at
`(x, y)`: the value of `clear` at its end and the number of iterations run. -/
def lookahead (b : Board) (d : Nat) : Nat → Nat → Nat → Option (Bool × Nat)
  | 0, _, _ => some (true, 0)
  | j + 1, x, y =>
    match Board.get b (moveX d x) (moveY d y) with
    | none => none
    | some c =>
      if c ≠ blank then some (false, 1)
      else
        match lookahead b d j (moveX d x) (moveY d y) with
        | none => none
        | some (clear, steps) => some (clear, steps + 1)

/-- The candidate attempt `i` of `respawn` writes into `p.x`, `p.y`, `p.d`
and `p.nextd`, from the three draws of that attempt. -/
def candidate (draws : Nat → Nat) (bw bh : Int) (i : Nat) : Option (Nat × Nat × Nat) :=
  match Intn (bw - 2) (draws (3 * i)) with
  | none => none
  | some rx =>
    match Intn (bh - 2) (draws (3 * i + 1)) with
    | none => none
    | some ry =>
      match Intn 4 (draws (3 * i + 2)) with
      | none => none
      | some rd => some ((rx % 256 + 1) % 256, (ry % 256 + 1) % 256, (rd + 65) % 256)

/-- The attempt loop of `respawn`, at attempt `i` with `n` attempts left: the
final state and the number of lookahead iterations each attempt ran. -/
def respawnLoop (draws : Nat → Nat) (p : Ptr) : Nat → Nat → Game → Option (Game × List Nat)
  | _, 0, g => some (g, [])
  | i, n + 1, g =>
    match candidate draws g.bw g.bh i with
    | none => none
    | some (cx, cy, cd) =>
      let g1 := g.modifyPlayer p (fun pl => { pl with x := cx, y := cy, d := cd, nextd := cd })
      match lookahead g1.board (g1.players p).d respawnLookahead (g1.players p).x
          (g1.players p).y with
      | none => none
      | some (clear, steps) =>
        if clear then some (g1.modifyPlayer p (fun pl => { pl with dead := false }), [steps])
        else
          match respawnLoop draws p (i + 1) n g1 with
          | none => none
          | some (g2, trace) => some (g2, steps :: trace)

/-- `Player.respawn()`. -/
def respawn (draws : Nat → Nat) (g : Game) (p : Ptr) : Option (Game × List Nat) :=
  if (g.players p).dead = false then some (g, [])
  else respawnLoop draws p 0 respawnAttempts g

/-- `Game.AddPlayer(p)`; `loaded` is the record `g.db.load` finds, if any. -/
def AddPlayer (draws : Nat → Nat) (loaded : Option (Int × Int)) (g : Game) (p : Ptr) :
    Option Game :=
  let g1 :=
    match loaded with
    | none => g
    | some (k, d) => g.modifyPlayer p (fun pl => { pl with Kills := k, Deaths := d })
  match respawn draws g1 p with
  | none => none
  | some (g2, _) =>
    some { g2 with currPlayers := Function.update g2.currPlayers (g2.players p).id (some p) }

/-- The grid has `W` columns of `H` cells each. -/
def Board.hasDims (b : Board) (W H : Nat) : Prop :=
  b.length = W ∧ ∀ col ∈ b, col.length = H

/-- The grid is `W` by `H` and its first and last column and row are wall. -/
def WallBordered (wall : ID) (b : Board) (W H : Nat) : Prop :=
  Board.hasDims b W H ∧
    ∀ x < W, ∀ y < H, (x = 0 ∨ x + 1 = W ∨ y = 0 ∨ y + 1 = H) → Board.get b x y = some wall

instance (b : Board) (W H : Nat) : Decidable (Board.hasDims b W H) := by
  unfold Board.hasDims; infer_instance

instance (wall : ID) (b : Board) (W H : Nat) : Decidable (WallBordered wall b W H) := by
  unfold WallBordered; infer_instance

/-- Every cell strictly inside the border is blank. -/
def InteriorBlank (b : Board) (W H : Nat) : Prop :=
  ∀ x < W, ∀ y < H, (0 < x ∧ x + 1 < W ∧ 0 < y ∧ y + 1 < H) → Board.get b x y = some blank

instance (b : Board) (W H : Nat) : Decidable (InteriorBlank b W H) := by
  unfold InteriorBlank; infer_instance

/-- The x component of the unit step of a direction. -/
def dx (d : Nat) : Int :=
  if d = dleft then -1 else if d = dright then 1 else 0

/-- The y component of the unit step of a direction. -/
def dy (d : Nat) : Int :=
  if d = dup then -1 else if d = ddown then 1 else 0

/-- One of the four direction constants. -/
def Cardinal (d : Nat) : Prop :=
  d = dup ∨ d = ddown ∨ d = dright ∨ d = dleft

instance (d : Nat) : Decidable (Cardinal d) := by
  unfold Cardinal; infer_instance

/-- The cell `(X, Y)` lies one unit from the position of the player at `p`
along its direction after the keys are applied (no wrap-around). -/
def IsDest (keys : Keys) (g : Game) (p : Ptr) (X Y : Nat) : Prop :=
  (X : Int) = ((g.players p).x : Int) + dx (steer keys (g.players p).d) ∧
    (Y : Int) = ((g.players p).y : Int) + dy (steer keys (g.players p).d)

instance (keys : Keys) (g : Game) (p : Ptr) (X Y : Nat) : Decidable (IsDest keys g p X Y) := by
  unfold IsDest; infer_instance

/-- A configuration `NewGame` accepts: a 32-by-32 world. -/
def demoConfig : Config :=
  { Width := 32, Height := 32, MaxPlayers := 6, RespawnDelay := 2000000000 }

/-- A heap in which the object at address `q` is `NewPlayer(q % 6 + 1, _)`:
identifiers 1 to 6, as in the table `colours`. -/
def demoHeap : Ptr → Player := fun q => NewPlayer (q % 6 + 1)

/-- A border column of the 32-by-32 arena: 32 cells of value 255, taken for
the constant `wall`. -/
def wallColumn : List ID := List.replicate 32 255

/-- An inner column of the arena: blank between two wall cells. -/
def openColumn : List ID := 255 :: (List.replicate 30 blank ++ [255])

/-- The board of the arena: 30 inner columns between two border columns. -/
def arenaBoard : Board := wallColumn :: (List.replicate 30 openColumn ++ [wallColumn])

/-- The state after `NewGame(c)` and the wall building of `Play`, with 255 for
the constant `wall`, when neither fails. -/
def played (c : Config) : Option Game :=
  match NewGame c { dbFails := false, loadAllFails := false } demoHeap with
  | Except.ok g => Play 255 g
  | Except.error _ => none

/-- The state `played demoConfig`, written out (see `arena_is_played`). -/
def arena : Game :=
  { config := demoConfig, h := 16, bw := 32, bh := 32, board := arenaBoard,
    players := demoHeap, currPlayers := fun _ => none, spawned := [] }

/-- The raw generator outputs `a, b, c, a, b, c, ...`. -/
def cycle3 (a b c : Nat) : Nat → Nat := fun k =>
  if k % 3 = 0 then a else if k % 3 = 1 then b else c

/-- No arrow key is pressed. -/
def noKeys : Keys := { left := false, right := false, down := false, up := false }

/-- Only the up arrow is pressed. -/
def upKey : Keys := { left := false, right := false, down := false, up := true }

/-- The arena after `AddPlayer` on the object at address 1 (identifier 2):
the draws place it at (5, 5) heading right. -/
def arenaB : Game := (AddPlayer (cycle3 4 4 2) none arena 1).getD arena

/-- The state `arenaB` after one pass of the loop body of `tick` over that
player: it stands at (6, 5) and owns that cell. -/
def arenaB1 : Game := (tickBody noKeys arenaB 1).getD arenaB

/-- The state `arenaB1` after `AddPlayer` on the object at address 0
(identifier 1): the draws place it at (6, 6) heading down. -/
def arenaAB : Game := (AddPlayer (cycle3 5 5 1) none arenaB1 0).getD arenaB1

/-- The arena after `AddPlayer` on the object at address 0 (identifier 1):
the draws place it at (1, 1) heading right. -/
def arenaA : Game := (AddPlayer (cycle3 0 0 2) none arena 0).getD arena

/-- A configuration whose respawn delay, half a second, is shorter than
`deathTrail`. -/
def quickConfig : Config :=
  { Width := 32, Height := 32, MaxPlayers := 6, RespawnDelay := 500000000 }

/-- The state `played quickConfig`, written out (see `arena_is_played`). -/
def arenaQuick : Game := { arena with config := quickConfig }

/-- The cell at integer coordinates, `none` outside the grid. -/
def cellAt (b : Board) (x y : Int) : Option ID :=
  if x < 0 ∨ y < 0 then none else Board.get b x.toNat y.toNat

/-- Each of the `n` cells reached by stepping from `(x, y)` along `d` (no
wrap-around) is inside the grid and blank. -/
def PathBlank (b : Board) (x y d n : Nat) : Prop :=
  ∀ k < n, cellAt b ((x : Int) + ((k : Int) + 1) * dx d) ((y : Int) + ((k : Int) + 1) * dy d) =
    some blank

instance (b : Board) (x y d n : Nat) : Decidable (PathBlank b x y d n) := by
  unfold PathBlank; infer_instance

/-- Attempt `i` of the draws has a fully clear lookahead path: its candidate
exists and the `respawnLookahead` cells ahead of it are blank. -/
def ClearAttempt (draws : Nat → Nat) (b : Board) (bw bh : Int) (i : Nat) : Prop :=
  match candidate draws bw bh i with
  | none => False
  | some (cx, cy, cd) => PathBlank b cx cy cd respawnLookahead

instance (draws : Nat → Nat) (b : Board) (bw bh : Int) (i : Nat) :
    Decidable (ClearAttempt draws b bw bh i) := by
  unfold ClearAttempt
  cases candidate draws bw bh i with
  | none => exact isFalse (fun h => h)
  | some c => exact inferInstanceAs (Decidable (PathBlank b c.1 c.2.1 c.2.2 respawnLookahead))

/-- The position and direction of the player at `p`. -/
def Game.posOf (g : Game) (p : Ptr) : Nat × Nat × Nat :=
  ((g.players p).x, (g.players p).y, (g.players p).d)

/-- The board of `g` is a wall-bordered `W`-by-`H` grid, `g.bw` and `g.bh`
are its size, and the size fits the `uint8` coordinates. -/
def WalledGame (wall : ID) (g : Game) (W H : Nat) : Prop :=
  WallBordered wall g.board W H ∧ wall ≠ blank ∧ g.bw = (W : Int) ∧ g.bh = (H : Int) ∧
    3 ≤ W ∧ W ≤ 256 ∧ 3 ≤ H ∧ H ≤ 256

instance (wall : ID) (g : Game) (W H : Nat) : Decidable (WalledGame wall g W H) := by
  unfold WalledGame; infer_instance

/-- The state after `NewGame(demoConfig)`, before `Play` has built the walls. -/
def bareArena : Game :=
  match NewGame demoConfig { dbFails := false, loadAllFails := false } demoHeap with
  | Except.ok g => g
  | Except.error _ =>
    { config := demoConfig, h := 0, bw := 0, bh := 0, board := [], players := demoHeap,
      currPlayers := fun _ => none, spawned := [] }

/-- The state `arenaA` after the player at address 0 has run into the wall
above it and its `death` goroutine has finished: it is a current player, dead,
and its waiting flag is false again. -/
def arenaDead : Game :=
  match tickBody upKey arenaA 0 with
  | none => arenaA
  | some g =>
    match death g 0 with
    | none => g
    | some (g1, _) => g1

/-- First part of the goroutine `g.death(p)`: `p.Deaths++` and, entering
`remove`, `p.waiting = true`; the first sleep of `remove` follows. -/
def deathBegin (g : Game) (p : Ptr) : Game :=
  (g.modifyPlayer p (fun pl => { pl with Deaths := wrapInt (pl.Deaths + 1) })).modifyPlayer p
    (fun pl => { pl with waiting := true })

/-- Second part of the goroutine: the sweep of `remove`; the second sleep
follows. -/
def removeSweep (g : Game) (p : Ptr) : Option Game :=
  match sweep g p with
  | none => none
  | some b => some { g with board := b }

/-- Last part of the goroutine: `p.waiting = false`. -/
def removeEnd (g : Game) (p : Ptr) : Game :=
  g.modifyPlayer p (fun pl => { pl with waiting := false })

/-- One action on the game state: `AddPlayer` (with its `respawn`), a bare
`respawn`, one pass of the loop body of `tick`, or one of the three parts of a
`death` goroutine, which run between the passes of `tick`. -/
inductive Step : Game → Game → Prop where
  | addPlayer (draws : Nat → Nat) (loaded : Option (Int × Int)) (g g1 : Game) (p : Ptr) :
      AddPlayer draws loaded g p = some g1 → Step g g1
  | respawn (draws : Nat → Nat) (g g1 : Game) (tr : List Nat) (p : Ptr) :
      respawn draws g p = some (g1, tr) → Step g g1
  | tick (keys : Keys) (g g1 : Game) (p : Ptr) : tickBody keys g p = some g1 → Step g g1
  | deathBegin (g : Game) (p : Ptr) : Step g (deathBegin g p)
  | removeSweep (g g1 : Game) (p : Ptr) : removeSweep g p = some g1 → Step g g1
  | removeEnd (g : Game) (p : Ptr) : Step g (removeEnd g p)

/-- The states reachable from `g0` by finitely many actions. -/
inductive Reachable (g0 : Game) : Game → Prop where
  | init : Reachable g0 g0
  | step (g g1 : Game) : Reachable g0 g → Step g g1 → Reachable g0 g1

/-- The position of the player at `p` is a cell strictly inside the border of
a `W`-by-`H` board. -/
def InteriorPos (g : Game) (p : Ptr) (W H : Nat) : Prop :=
  0 < (g.players p).x ∧ (g.players p).x + 1 < W ∧ 0 < (g.players p).y ∧ (g.players p).y + 1 < H

instance (g : Game) (p : Ptr) (W H : Nat) : Decidable (InteriorPos g p W H) := by
  unfold InteriorPos; infer_instance

/-- A configuration with width 32 and height 33. -/
def tallConfig : Config :=
  { Width := 32, Height := 33, MaxPlayers := 6, RespawnDelay := 2000000000 }

/-- A configuration with width 33 and height 32. -/
def wideConfig : Config :=
  { Width := 33, Height := 32, MaxPlayers := 6, RespawnDelay := 2000000000 }

/-- The invariant of the reachable states of a wall-bordered game: the board
stays wall-bordered with size `bw` by `bh`, no player object is identified by
the wall value, and every alive player stands on an interior cell. -/
def GameInv (wall : ID) (W H : Nat) (g : Game) : Prop :=
  WalledGame wall g W H ∧ (∀ q, (g.players q).id ≠ wall) ∧
    ∀ q, (g.players q).dead = false → InteriorPos g q W H

/-- The arena after `AddPlayer` on the object at address 1 (identifier 2),
for which `g.db.load` finds the largest `int` as Kills: the draws place it
at (5, 5) heading right. -/
def arenaMaxB : Game :=
  (AddPlayer (cycle3 4 4 2) (some (9223372036854775807, 0)) arena 1).getD arena

/-- The state `arenaMaxB` after one pass of the loop body of `tick` over that
player: it stands at (6, 5) and owns that cell. -/
def arenaMaxB1 : Game := (tickBody noKeys arenaMaxB 1).getD arenaMaxB

/-- The state `arenaMaxB1` after `AddPlayer` on the object at address 0
(identifier 1), for which `g.db.load` finds the largest `int` as Deaths: the
draws place it at (6, 6) heading down. -/
def arenaMax : Game :=
  (AddPlayer (cycle3 5 5 1) (some (0, 9223372036854775807)) arenaMaxB1 0).getD arenaMaxB1

/-- A heap in which the object at address 1 is `NewPlayer(255, _)`, its
identifier being the value taken for `wall`. -/
def wallIdHeap : Ptr → Player := fun q => if q = 1 then NewPlayer 255 else NewPlayer (q % 6 + 1)

/-- The arena over the heap `wallIdHeap`. -/
def arenaWallId : Game := { arena with players := wallIdHeap }

/-- The state `arenaWallId` after `AddPlayer` on the object at address 1
(identifier 255): the draws place it at (5, 5) heading right. -/
def arenaWallB : Game := (AddPlayer (cycle3 4 4 2) none arenaWallId 1).getD arenaWallId

/-- The state `arenaWallB` after `AddPlayer` on the object at address 0
(identifier 1): the draws place it at (1, 1) heading right. -/
def arenaWallAB : Game := (AddPlayer (cycle3 0 0 2) none arenaWallB 0).getD arenaWallB

/-! ## Theorems -/

theorem Board.get_eq_some_iff (b : Board) (x y : Nat) (c : ID) :
    Board.get b x y = some c ↔ ∃ col, b[x]? = some col ∧ col[y]? = some c := by
  unfold Board.get
  cases h : b[x]? with
  | none => simp
  | some col => simp

theorem Board.hasDims_get_col {b : Board} {W H : Nat} (hd : Board.hasDims b W H) {x : Nat}
    (hx : x < W) : ∃ col, b[x]? = some col ∧ col.length = H := by
  obtain ⟨hl, hc⟩ := hd
  have hx2 : x < b.length := by omega
  refine ⟨b[x], ?_, hc _ (List.getElem_mem _)⟩
  exact List.getElem?_eq_getElem hx2

theorem Board.get_isSome_of_lt {b : Board} {W H : Nat} (hd : Board.hasDims b W H) {x y : Nat}
    (hx : x < W) (hy : y < H) : ∃ c, Board.get b x y = some c := by
  obtain ⟨col, h1, h2⟩ := Board.hasDims_get_col hd hx
  have hy2 : y < col.length := by omega
  exact ⟨col[y], (Board.get_eq_some_iff b x y _).2 ⟨col, h1, List.getElem?_eq_getElem hy2⟩⟩

theorem Board.lt_of_get_eq_some {b : Board} {W H : Nat} (hd : Board.hasDims b W H) {x y : Nat}
    {c : ID} (h : Board.get b x y = some c) : x < W ∧ y < H := by
  obtain ⟨col, h1, h2⟩ := (Board.get_eq_some_iff b x y c).1 h
  obtain ⟨hl, hc⟩ := hd
  have hx : x < b.length := by
    by_contra hn
    rw [List.getElem?_eq_none (by omega)] at h1
    cases h1
  have hmem : col ∈ b := by
    rw [List.getElem?_eq_getElem hx] at h1
    cases h1
    exact List.getElem_mem _
  have hy : y < col.length := by
    by_contra hn
    rw [List.getElem?_eq_none (by omega)] at h2
    cases h2
  rw [hc col hmem] at hy
  omega

theorem Board.set_isSome_of_lt {b : Board} {W H : Nat} (hd : Board.hasDims b W H) {x y : Nat}
    (hx : x < W) (hy : y < H) (v : ID) : ∃ b1, Board.set b x y v = some b1 := by
  obtain ⟨col, h1, h2⟩ := Board.hasDims_get_col hd hx
  unfold Board.set
  rw [h1]
  simp [h2, hy]

theorem Board.set_eq_some {b b1 : Board} {x y : Nat} {v : ID} (h : Board.set b x y v = some b1) :
    ∃ col, b[x]? = some col ∧ y < col.length ∧ b1 = List.set b x (List.set col y v) := by
  unfold Board.set at h
  cases hc : b[x]? with
  | none => rw [hc] at h; cases h
  | some col =>
    rw [hc] at h
    by_cases hy : y < col.length
    · simp [hy] at h
      exact ⟨col, rfl, hy, h.symm⟩
    · simp [hy] at h

theorem Board.get_set_same {b b1 : Board} {x y : Nat} {v : ID}
    (h : Board.set b x y v = some b1) : Board.get b1 x y = some v := by
  obtain ⟨col, h1, h2, rfl⟩ := Board.set_eq_some h
  have hx : x < b.length := by
    by_contra hn
    rw [List.getElem?_eq_none (by omega)] at h1
    cases h1
  rw [Board.get_eq_some_iff]
  refine ⟨List.set col y v, ?_, ?_⟩
  · simp [List.getElem?_set, hx]
  · simp [List.getElem?_set, h2]

theorem Board.get_set_other {b b1 : Board} {x y : Nat} {v : ID}
    (h : Board.set b x y v = some b1) (a c : Nat) (hne : a ≠ x ∨ c ≠ y) :
    Board.get b1 a c = Board.get b a c := by
  obtain ⟨col, h1, h2, rfl⟩ := Board.set_eq_some h
  unfold Board.get
  by_cases hax : a = x
  · subst hax
    have hc : c ≠ y := by
      rcases hne with h | h
      · exact absurd rfl h
      · exact h
    have hx : a < b.length := by
      by_contra hn
      rw [List.getElem?_eq_none (by omega)] at h1
      cases h1
    simp [List.getElem?_set, hx, h1, Ne.symm hc]
  · simp [List.getElem?_set, Ne.symm hax]

theorem Board.set_hasDims {b b1 : Board} {x y : Nat} {v : ID} {W H : Nat}
    (h : Board.set b x y v = some b1) (hd : Board.hasDims b W H) : Board.hasDims b1 W H := by
  obtain ⟨col, h1, h2, rfl⟩ := Board.set_eq_some h
  obtain ⟨hl, hc⟩ := hd
  refine ⟨by simpa using hl, ?_⟩
  intro c hmem
  have hx : x < b.length := by
    by_contra hn
    rw [List.getElem?_eq_none (by omega)] at h1
    cases h1
  have hcol : col ∈ b := by
    rw [List.getElem?_eq_getElem hx] at h1
    cases h1
    exact List.getElem_mem _
  rcases List.mem_or_eq_of_mem_set hmem with h3 | h3
  · exact hc c h3
  · rw [h3]; simpa using hc col hcol
theorem moveX_eq_of_dest {d x X : Nat} (hx : x < 256) (hX : X < 256)
    (h : (X : Int) = (x : Int) + dx d) : moveX d x = X := by
  unfold moveX
  unfold dx at h
  split_ifs at h ⊢ <;> omega

theorem moveY_eq_of_dest {d y Y : Nat} (hy : y < 256) (hY : Y < 256)
    (h : (Y : Int) = (y : Int) + dy d) : moveY d y = Y := by
  unfold moveY
  unfold dy at h
  split_ifs at h ⊢ <;> omega

theorem unit_step_of_cardinal {d : Nat} (h : Cardinal d) :
    Int.natAbs (dx d) + Int.natAbs (dy d) = 1 := by
  unfold Cardinal at h
  unfold dx dy dup ddown dright dleft at *
  rcases h with h | h | h | h <;> subst h <;> decide

/-- C1: on a `W`-by-`H` board (`W, H <= 256`, as for every board `NewBoard`
can return, wall-bordered or not), when the cell one unit from an alive
player along its direction after the keys is blank, the loop body of `tick`
returns, the player stands exactly one unit further along that direction,
the destination cell holds its identifier, the player is still alive and
every other cell of the board is as before. -/
theorem tickBody_blank_moves (keys : Keys) (g : Game) (p : Ptr) (W H X Y : Nat)
    (hd : Board.hasDims g.board W H) (hW : W ≤ 256) (hH : H ≤ 256)
    (halive : (g.players p).dead = false)
    (hx : (g.players p).x < 256) (hy : (g.players p).y < 256)
    (hcard : Cardinal (steer keys (g.players p).d))
    (hdest : IsDest keys g p X Y) (hblank : Board.get g.board X Y = some blank) :
    ∃ g1, tickBody keys g p = some g1 ∧
      ((g1.players p).x : Int) = ((g.players p).x : Int) + dx (steer keys (g.players p).d) ∧
      ((g1.players p).y : Int) = ((g.players p).y : Int) + dy (steer keys (g.players p).d) ∧
      Int.natAbs (dx (steer keys (g.players p).d)) +
        Int.natAbs (dy (steer keys (g.players p).d)) = 1 ∧
      Board.get g1.board X Y = some (g.players p).id ∧
      (g1.players p).dead = false ∧
      ∀ a c, (a ≠ X ∨ c ≠ Y) → Board.get g1.board a c = Board.get g.board a c := by
  obtain ⟨hXW, hYH⟩ := Board.lt_of_get_eq_some hd hblank
  have hmx := moveX_eq_of_dest hx (by omega) hdest.1
  have hmy := moveY_eq_of_dest hy (by omega) hdest.2
  obtain ⟨b1, hb1⟩ := Board.set_isSome_of_lt hd hXW hYH (g.players p).id
  have e : ∃ g1, tickBody keys g p = some g1 ∧ g1.board = b1 ∧
      g1.players = Function.update g.players p
        { g.players p with d := steer keys (g.players p).d, x := X, y := Y } := by
    simp [tickBody, halive, Game.modifyPlayer, hmx, hmy, hblank, hb1]
  obtain ⟨g1, hg1, hbd, hpl⟩ := e
  refine ⟨g1, hg1, ?_, ?_, unit_step_of_cardinal hcard, ?_, ?_, ?_⟩
  · rw [hpl]; simp [hdest.1]
  · rw [hpl]; simp [hdest.2]
  · rw [hbd]; exact Board.get_set_same hb1
  · rw [hpl]; simp [halive]
  · intro a c hne
    rw [hbd]
    exact Board.get_set_other hb1 a c hne

theorem forLoop_total {σ : Type} (body : Nat → σ → Option σ) (P : Nat → σ → Prop) :
    ∀ (n i : Nat) (s : σ), P i s →
      (∀ k t, i ≤ k → k < i + n → P k t → ∃ t1, body k t = some t1 ∧ P (k + 1) t1) →
      ∃ s1, forLoop body i n s = some s1 ∧ P (i + n) s1 := by
  intro n
  induction n with
  | zero => intro i s hs _; exact ⟨s, rfl, by simpa using hs⟩
  | succ n ih =>
    intro i s hs hbody
    obtain ⟨t1, ht1, hP⟩ := hbody i s (Nat.le_refl i) (by omega) hs
    obtain ⟨s1, hs1, hP1⟩ := ih (i + 1) t1 hP (fun k t hk1 hk2 hPk =>
      hbody k t (by omega) (by omega) hPk)
    refine ⟨s1, ?_, ?_⟩
    · simp [forLoop, ht1, hs1]
    · have : i + (n + 1) = i + 1 + n := by omega
      rw [this]; exact hP1

theorem forLoop_preserves {σ : Type} (body : Nat → σ → Option σ) (P : σ → Prop)
    (hbody : ∀ k t t1, body k t = some t1 → P t → P t1) :
    ∀ (n i : Nat) (s s1 : σ), forLoop body i n s = some s1 → P s → P s1 := by
  intro n
  induction n with
  | zero =>
    intro i s s1 h hs
    simp [forLoop] at h
    rw [← h]; exact hs
  | succ n ih =>
    intro i s s1 h hs
    unfold forLoop at h
    cases hb : body i s with
    | none => rw [hb] at h; cases h
    | some t =>
      rw [hb] at h
      exact ih (i + 1) t s1 h (hbody i s t hb hs)

theorem sweepCell_total {b : Board} {W H : Nat} (hd : Board.hasDims b W H) (id : ID)
    {w h : Nat} (hw : w < W) (hh : h < H) :
    ∃ b1, sweepCell id w h b = some b1 ∧ Board.hasDims b1 W H := by
  obtain ⟨c, hc⟩ := Board.get_isSome_of_lt hd hw hh
  unfold sweepCell
  rw [hc]
  by_cases hcid : c = id
  · obtain ⟨b1, hb1⟩ := Board.set_isSome_of_lt hd hw hh blank
    exact ⟨b1, by simp [hcid, hb1], Board.set_hasDims hb1 hd⟩
  · exact ⟨b, by simp [hcid], hd⟩

theorem sweepCell_hasDims {b b1 : Board} {W H : Nat} {id : ID} {w h : Nat}
    (hs : sweepCell id w h b = some b1) (hd : Board.hasDims b W H) : Board.hasDims b1 W H := by
  unfold sweepCell at hs
  cases hc : Board.get b w h with
  | none => rw [hc] at hs; cases hs
  | some c =>
    rw [hc] at hs
    by_cases hcid : c = id
    · simp [hcid] at hs
      exact Board.set_hasDims hs hd
    · simp [hcid] at hs
      rw [← hs]; exact hd

theorem sweep_total (g : Game) (p : Ptr) (W H : Nat) (hd : Board.hasDims g.board W H)
    (hbw : g.bw = W) (hbh : g.bh = H) :
    ∃ b1, sweep g p = some b1 ∧ Board.hasDims b1 W H := by
  unfold sweep
  have hW : g.bw.toNat = W := by rw [hbw]; simp
  have hH : g.bh.toNat = H := by rw [hbh]; simp
  rw [hW, hH]
  have h := forLoop_total
    (fun w b => forLoop (fun h b1 => sweepCell (g.players p).id w h b1) 0 H b)
    (fun _ b => Board.hasDims b W H) W 0 g.board hd (by
      intro w b _ hw hb
      have h2 := forLoop_total (fun h b1 => sweepCell (g.players p).id w h b1)
        (fun _ b => Board.hasDims b W H) H 0 b hb (by
          intro h b2 _ hh hb2
          exact sweepCell_total hb2 _ (by omega) (by omega))
      exact h2)
  simpa using h

theorem sweep_hasDims (g : Game) (p : Ptr) (W H : Nat) (b1 : Board)
    (hs : sweep g p = some b1) (hd : Board.hasDims g.board W H) : Board.hasDims b1 W H := by
  unfold sweep at hs
  refine forLoop_preserves _ (fun b => Board.hasDims b W H) ?_ _ _ _ _ hs hd
  intro w b b2 hb hdb
  refine forLoop_preserves _ (fun b => Board.hasDims b W H) ?_ _ _ _ _ hb hdb
  intro h b3 b4 hb3 hdb3
  exact sweepCell_hasDims hb3 hdb3

theorem death_total (g : Game) (p : Ptr) (W H : Nat) (hd : Board.hasDims g.board W H)
    (hbw : g.bw = W) (hbh : g.bh = H) :
    ∃ g2 tr, death g p = some (g2, tr) ∧
      (∀ q, (g2.players q).Deaths = if q = p then wrapInt ((g.players q).Deaths + 1)
        else (g.players q).Deaths) ∧
      (∀ q, (g2.players q).Kills = (g.players q).Kills) ∧
      (∀ q, (g2.players q).dead = (g.players q).dead) ∧
      Board.hasDims g2.board W H := by
  obtain ⟨b1, hb1, hd1⟩ := sweep_total
    ((g.modifyPlayer p (fun pl => { pl with Deaths := wrapInt (pl.Deaths + 1) })).modifyPlayer p
      (fun pl => { pl with waiting := true })) p W H hd hbw hbh
  unfold death remove
  simp only [hb1]
  refine ⟨_, _, rfl, ?_, ?_, ?_, hd1⟩
  · intro q
    by_cases hq : q = p
    · subst hq; simp [Game.modifyPlayer]
    · simp [Game.modifyPlayer, hq]
  · intro q
    by_cases hq : q = p
    · subst hq; simp [Game.modifyPlayer]
    · simp [Game.modifyPlayer, hq]
  · intro q
    by_cases hq : q = p
    · subst hq; simp [Game.modifyPlayer]
    · simp [Game.modifyPlayer, hq]

theorem creditKill_players (g : Game) (p : Ptr) (id : ID) (q : Ptr) :
    ((creditKill g p id).players q).Kills =
      (if g.currPlayers id = some q ∧ q ≠ p then wrapInt ((g.players q).Kills + 1)
        else (g.players q).Kills) ∧
    ((creditKill g p id).players q).dead = (g.players q).dead ∧
    ((creditKill g p id).players q).Deaths = (g.players q).Deaths ∧
    ((creditKill g p id).players q).x = (g.players q).x ∧
    ((creditKill g p id).players q).y = (g.players q).y ∧
    ((creditKill g p id).players q).id = (g.players q).id := by
  unfold creditKill
  cases hc : g.currPlayers id with
  | none => simp
  | some other =>
    by_cases ho : other = p
    · subst ho
      simp only [ne_eq, not_true_eq_false, if_false]
      by_cases hq : other = q
      · subst hq; simp
      · simp [hq]
    · simp only [ne_eq, ho, not_false_eq_true, if_true]
      by_cases hq : q = other
      · subst hq; simp [Game.modifyPlayer, ho]
      · have hq2 : ¬ other = q := fun h => hq h.symm
        simp [Game.modifyPlayer, hq, hq2]

theorem creditKill_fields (g : Game) (p : Ptr) (id : ID) :
    (creditKill g p id).board = g.board ∧ (creditKill g p id).spawned = g.spawned ∧
      (creditKill g p id).bw = g.bw ∧ (creditKill g p id).bh = g.bh ∧
      (creditKill g p id).currPlayers = g.currPlayers ∧
      (creditKill g p id).config = g.config := by
  unfold creditKill
  cases hc : g.currPlayers id with
  | none => simp
  | some other =>
    by_cases ho : other = p
    · simp [ho]
    · simp [ho, Game.modifyPlayer]

theorem tickBody_collision (keys : Keys) (g : Game) (p : Ptr) (W H X Y : Nat) (c : ID)
    (hd : Board.hasDims g.board W H) (hW : W ≤ 256) (hH : H ≤ 256)
    (halive : (g.players p).dead = false)
    (hx : (g.players p).x < 256) (hy : (g.players p).y < 256)
    (hdest : IsDest keys g p X Y) (hcell : Board.get g.board X Y = some c) (hc : c ≠ blank) :
    ∃ g1, tickBody keys g p = some g1 ∧ g1.board = g.board ∧
      g1.spawned = p :: g.spawned ∧ g1.bw = g.bw ∧ g1.bh = g.bh ∧
      (g1.players p).dead = true ∧ (g1.players p).x = X ∧ (g1.players p).y = Y ∧
      (∀ q, (g1.players q).Kills =
        if g.currPlayers c = some q ∧ q ≠ p then wrapInt ((g.players q).Kills + 1)
        else (g.players q).Kills) ∧
      (∀ q, (g1.players q).Deaths = (g.players q).Deaths) := by
  obtain ⟨hXW, hYH⟩ := Board.lt_of_get_eq_some hd hcell
  have hmx := moveX_eq_of_dest hx (by omega) hdest.1
  have hmy := moveY_eq_of_dest hy (by omega) hdest.2
  let d1 := steer keys (g.players p).d
  let g1 := g.modifyPlayer p (fun pl => { pl with d := d1, x := moveX d1 pl.x, y := moveY d1 pl.y })
  have hg1c : g1.currPlayers = g.currPlayers := rfl
  have hK : ∀ q, (g1.players q).Kills = (g.players q).Kills ∧
      (g1.players q).Deaths = (g.players q).Deaths := by
    intro q
    by_cases hq : q = p
    · subst hq; simp [g1, Game.modifyPlayer]
    · simp [g1, Game.modifyPlayer, hq]
  let g3 := (creditKill g1 p c).modifyPlayer p (fun pl => { pl with dead := true })
  have e : tickBody keys g p = some { g3 with spawned := p :: g3.spawned } := by
    simp [tickBody, halive, Game.modifyPlayer, hmx, hmy, hcell, hc, g1, g3, d1]
  obtain ⟨hb, hs, hbw, hbh, _, _⟩ := creditKill_fields g1 p c
  have hg1p : (g1.players p).x = X ∧ (g1.players p).y = Y := by
    simp [g1, Game.modifyPlayer, d1, hmx, hmy]
  refine ⟨_, e, hb, ?_, hbw, hbh, ?_, ?_, ?_, ?_, ?_⟩
  · show p :: (creditKill g1 p c).spawned = p :: g.spawned
    rw [hs]; rfl
  · simp [g3, Game.modifyPlayer]
  · have h1 := (creditKill_players g1 p c p).2.2.2.1
    simp only [g3, Game.modifyPlayer, Function.update_same]
    rw [h1]; exact hg1p.1
  · have h1 := (creditKill_players g1 p c p).2.2.2.2.1
    simp only [g3, Game.modifyPlayer, Function.update_same]
    rw [h1]; exact hg1p.2
  · intro q
    have h1 := (creditKill_players g1 p c q).1
    rw [hg1c, (hK q).1] at h1
    by_cases hq : q = p
    · subst hq
      simp only [g3, Game.modifyPlayer, Function.update_same]
      exact h1
    · have h2 : (g3.players q) = (creditKill g1 p c).players q := by
        simp only [g3, Game.modifyPlayer, ne_eq, hq, not_false_eq_true, Function.update_noteq]
      show (g3.players q).Kills = _
      rw [h2]; exact h1
  · intro q
    have h1 := (creditKill_players g1 p c q).2.2.1
    rw [(hK q).2] at h1
    by_cases hq : q = p
    · subst hq
      simp only [g3, Game.modifyPlayer, Function.update_same]
      exact h1
    · simp only [g3, Game.modifyPlayer, ne_eq, hq, not_false_eq_true, Function.update_noteq]
      exact h1

theorem wrapInt_succ {n : Int} (h1 : intMin ≤ n) (h2 : n < intMax) : wrapInt (n + 1) = n + 1 := by
  unfold wrapInt
  unfold intMin at h1
  unfold intMax at h2
  omega

/-- C2, amended: when the cell one unit from an alive current player along
its direction holds a non-blank identifier `c`, the loop body of `tick`
returns with the mover dead and its `death` goroutine started; once `death`
has run the mover's death counter, if it was below the largest `int`, is one
higher; if `c` is registered to a different current player `B`, the Kills of
`B`, if it was below the largest `int`, is one higher, and every other Kills
(the mover's included) is as before; if `c` is the mover's own identifier, no
Kills changes. -/
theorem tickBody_trail_collision (keys : Keys) (g : Game) (p : Ptr) (W H X Y : Nat) (c : ID)
    (hd : Board.hasDims g.board W H) (hW : W ≤ 256) (hH : H ≤ 256)
    (hbw : g.bw = (W : Int)) (hbh : g.bh = (H : Int))
    (halive : (g.players p).dead = false)
    (hcur : g.currPlayers (g.players p).id = some p)
    (hx : (g.players p).x < 256) (hy : (g.players p).y < 256)
    (hdest : IsDest keys g p X Y) (hcell : Board.get g.board X Y = some c) (hc : c ≠ blank) :
    ∃ g1, tickBody keys g p = some g1 ∧ (g1.players p).dead = true ∧
      g1.spawned = p :: g.spawned ∧
      (∃ g2 tr, death g1 p = some (g2, tr) ∧ (g2.players p).dead = true ∧
        (intMin ≤ (g.players p).Deaths → (g.players p).Deaths < intMax →
          (g2.players p).Deaths = (g.players p).Deaths + 1)) ∧
      (∀ B, g.currPlayers c = some B → B ≠ p →
        (intMin ≤ (g.players B).Kills → (g.players B).Kills < intMax →
          (g1.players B).Kills = (g.players B).Kills + 1) ∧
        (g1.players p).Kills = (g.players p).Kills ∧
        ∀ q, q ≠ B → (g1.players q).Kills = (g.players q).Kills) ∧
      (c = (g.players p).id → ∀ q, (g1.players q).Kills = (g.players q).Kills) := by
  obtain ⟨g1, hg1, hb, hs, hbw1, hbh1, hdead, _, _, hK, hD⟩ :=
    tickBody_collision keys g p W H X Y c hd hW hH halive hx hy hdest hcell hc
  obtain ⟨g2, tr, hg2, hD2, _, hdead2, _⟩ :=
    death_total g1 p W H (by rw [hb]; exact hd) (by rw [hbw1]; exact hbw) (by rw [hbh1]; exact hbh)
  refine ⟨g1, hg1, hdead, hs, ⟨g2, tr, hg2, ?_, ?_⟩, ?_, ?_⟩
  · rw [hdead2 p]; exact hdead
  · intro h1 h2
    rw [hD2 p, hD p]
    simp only [if_true]
    exact wrapInt_succ h1 h2
  · intro B hB hBp
    refine ⟨?_, ?_, ?_⟩
    · intro h1 h2
      rw [hK B]
      rw [if_pos ⟨hB, hBp⟩]
      exact wrapInt_succ h1 h2
    · rw [hK p]; simp
    · intro q hq
      rw [hK q]
      have : ¬ (g.currPlayers c = some q ∧ q ≠ p) := by
        rintro ⟨h1, _⟩
        rw [hB] at h1
        exact hq (Option.some.inj h1).symm
      simp [this]
  · intro hcid q
    rw [hK q]
    have : ¬ (g.currPlayers c = some q ∧ q ≠ p) := by
      rintro ⟨h1, h2⟩
      rw [hcid, hcur] at h1
      exact h2 (Option.some.inj h1).symm
    simp [this]

/-- C3, amended: when the cell one unit from an alive player along its
direction is a wall, and `wall` is not the identifier of another current
player, the loop body of `tick` returns with the mover dead, no Kills changed,
the board (so the wall cell) unchanged, and the mover's stored position equal
to the coordinates of that wall cell, which lie inside the board. -/
theorem tickBody_wall_collision (wall : ID) (keys : Keys) (g : Game) (p : Ptr)
    (W H X Y : Nat)
    (hd : Board.hasDims g.board W H) (hW : W ≤ 256) (hH : H ≤ 256)
    (hwall : wall ≠ blank)
    (hnone : g.currPlayers wall = none ∨ g.currPlayers wall = some p)
    (halive : (g.players p).dead = false)
    (hx : (g.players p).x < 256) (hy : (g.players p).y < 256)
    (hdest : IsDest keys g p X Y) (hcell : Board.get g.board X Y = some wall) :
    ∃ g1, tickBody keys g p = some g1 ∧ (g1.players p).dead = true ∧
      (∀ q, (g1.players q).Kills = (g.players q).Kills) ∧
      g1.board = g.board ∧ Board.get g1.board X Y = some wall ∧
      (g1.players p).x = X ∧ (g1.players p).y = Y ∧ X < W ∧ Y < H := by
  obtain ⟨g1, hg1, hb, _, _, _, hdead, hx1, hy1, hK, _⟩ :=
    tickBody_collision keys g p W H X Y wall hd hW hH halive hx hy hdest hcell hwall
  obtain ⟨hXW, hYH⟩ := Board.lt_of_get_eq_some hd hcell
  refine ⟨g1, hg1, hdead, ?_, hb, by rw [hb]; exact hcell, hx1, hy1, hXW, hYH⟩
  intro q
  rw [hK q]
  have : ¬ (g.currPlayers wall = some q ∧ q ≠ p) := by
    rintro ⟨h1, h2⟩
    rcases hnone with h | h
    · rw [h] at h1; cases h1
    · rw [h] at h1; exact h2 (Option.some.inj h1).symm
  simp [this]

theorem NewGame_fields (c : Config) (env : Env) (heap : Ptr → Player) (g : Game)
    (h : NewGame c env heap = Except.ok g) :
    g.config = c ∧ g.h = c.Height / 2 ∧ g.bw = c.Height ∧ g.bh = c.Width ∧
      g.players = heap ∧ g.currPlayers = (fun _ => none) ∧ g.spawned = [] := by
  unfold NewGame at h
  split at h
  · cases h
  · split at h
    · cases h
    · split at h
      · cases h
      · split at h
        · cases h
        · cases h
          exact ⟨rfl, rfl, rfl, rfl, rfl, rfl, rfl⟩

theorem Play_fields (wall : ID) (g g1 : Game) (h : Play wall g = some g1) :
    g1.config = g.config ∧ g1.h = g.h ∧ g1.bw = g.bw ∧ g1.bh = g.bh ∧
      g1.players = g.players ∧ g1.currPlayers = g.currPlayers ∧ g1.spawned = g.spawned := by
  unfold Play at h
  split at h
  · cases h
  · split at h
    · cases h
    · cases h
      exact ⟨rfl, rfl, rfl, rfl, rfl, rfl, rfl⟩

theorem played_fields (c : Config) (g : Game) (h : played c = some g) :
    g.config = c ∧ g.h = c.Height / 2 ∧ g.bw = c.Height ∧ g.bh = c.Width ∧
      g.players = demoHeap ∧ g.currPlayers = (fun _ => none) ∧ g.spawned = [] := by
  unfold played at h
  split at h
  · rename_i g0 hg0
    obtain ⟨a1, a2, a3, a4, a5, a6, a7⟩ := NewGame_fields _ _ _ _ hg0
    obtain ⟨b1, b2, b3, b4, b5, b6, b7⟩ := Play_fields _ _ _ h
    exact ⟨b1.trans a1, b2.trans a2, b3.trans a3, b4.trans a4, b5.trans a5, b6.trans a6,
      b7.trans a7⟩
  · cases h

set_option maxRecDepth 1000000 in
theorem arena_is_played :
    (∃ g, played demoConfig = some g ∧ g.config = arena.config ∧ g.h = arena.h ∧
        g.bw = arena.bw ∧ g.bh = arena.bh ∧ g.board = arena.board ∧
        g.players = arena.players ∧ g.currPlayers = arena.currPlayers ∧
        g.spawned = arena.spawned) ∧
      (∃ g, played quickConfig = some g ∧ g.config = arenaQuick.config ∧ g.h = arenaQuick.h ∧
        g.bw = arenaQuick.bw ∧ g.bh = arenaQuick.bh ∧ g.board = arenaQuick.board ∧
        g.players = arenaQuick.players ∧ g.currPlayers = arenaQuick.currPlayers ∧
        g.spawned = arenaQuick.spawned) := by
  have hb1 : (played demoConfig).map (fun g => g.board) = some arenaBoard := by decide
  have hb2 : (played quickConfig).map (fun g => g.board) = some arenaBoard := by decide
  constructor
  · cases h : played demoConfig with
    | none => rw [h] at hb1; cases hb1
    | some g =>
      rw [h] at hb1
      obtain ⟨a1, a2, a3, a4, a5, a6, a7⟩ := played_fields _ _ h
      exact ⟨g, rfl, a1, a2, a3, a4, Option.some.inj hb1, a5, a6, a7⟩
  · cases h : played quickConfig with
    | none => rw [h] at hb2; cases hb2
    | some g =>
      rw [h] at hb2
      obtain ⟨a1, a2, a3, a4, a5, a6, a7⟩ := played_fields _ _ h
      exact ⟨g, rfl, a1, a2, a3, a4, Option.some.inj hb2, a5, a6, a7⟩

set_option maxRecDepth 100000 in
theorem tickBody_blank_moves_witness :
    ∃ g1, tickBody noKeys arenaB 1 = some g1 ∧
      ((g1.players 1).x : Int) = ((arenaB.players 1).x : Int) +
        dx (steer noKeys (arenaB.players 1).d) ∧
      ((g1.players 1).y : Int) = ((arenaB.players 1).y : Int) +
        dy (steer noKeys (arenaB.players 1).d) ∧
      Int.natAbs (dx (steer noKeys (arenaB.players 1).d)) +
        Int.natAbs (dy (steer noKeys (arenaB.players 1).d)) = 1 ∧
      Board.get g1.board 6 5 = some (arenaB.players 1).id ∧
      (g1.players 1).dead = false ∧
      ∀ a c, (a ≠ 6 ∨ c ≠ 5) → Board.get g1.board a c = Board.get arenaB.board a c :=
  tickBody_blank_moves noKeys arenaB 1 32 32 6 5 (by decide) (by decide) (by decide)
    (by decide) (by decide) (by decide) (by decide) (by decide) (by decide)

set_option maxRecDepth 100000 in
theorem tickBody_trail_collision_witness :
    ∃ g1, tickBody upKey arenaAB 0 = some g1 ∧ (g1.players 0).dead = true ∧
      g1.spawned = 0 :: arenaAB.spawned ∧
      (∃ g2 tr, death g1 0 = some (g2, tr) ∧ (g2.players 0).dead = true ∧
        (intMin ≤ (arenaAB.players 0).Deaths → (arenaAB.players 0).Deaths < intMax →
          (g2.players 0).Deaths = (arenaAB.players 0).Deaths + 1)) ∧
      (∀ B, arenaAB.currPlayers 2 = some B → B ≠ 0 →
        (intMin ≤ (arenaAB.players B).Kills → (arenaAB.players B).Kills < intMax →
          (g1.players B).Kills = (arenaAB.players B).Kills + 1) ∧
        (g1.players 0).Kills = (arenaAB.players 0).Kills ∧
        ∀ q, q ≠ B → (g1.players q).Kills = (arenaAB.players q).Kills) ∧
      (2 = (arenaAB.players 0).id → ∀ q, (g1.players q).Kills = (arenaAB.players q).Kills) :=
  tickBody_trail_collision upKey arenaAB 0 32 32 6 5 2 (by decide) (by decide) (by decide)
    (by decide) (by decide) (by decide) (by decide) (by decide) (by decide) (by decide)
    (by decide) (by decide)

set_option maxRecDepth 1000000 in
/-- C2, as stated, fails at the largest `int`: in `arenaMax` the alive current
player at address 0 heads, with the up key, for the cell (6, 5), which holds
the identifier 2 of the different current player at address 1; the Kills of
that player, 9223372036854775807, wraps to -9223372036854775808 instead of
rising by one, and once `death` has run the mover's Deaths, also
9223372036854775807, has wrapped likewise. -/
theorem tickBody_counters_wrap :
    ((arenaMax.players 0).dead = false ∧
        arenaMax.currPlayers (arenaMax.players 0).id = some 0 ∧
        IsDest upKey arenaMax 0 6 5 ∧ Board.get arenaMax.board 6 5 = some 2 ∧
        arenaMax.currPlayers 2 = some 1 ∧ WallBordered 255 arenaMax.board 32 32) ∧
      ((arenaMax.players 1).Kills = 9223372036854775807 ∧
        (arenaMax.players 0).Deaths = 9223372036854775807) ∧
      (tickBody upKey arenaMax 0).map (fun g => ((g.players 0).dead, (g.players 1).Kills)) =
        some (true, -9223372036854775808) ∧
      ((tickBody upKey arenaMax 0).bind (fun g => death g 0)).map
          (fun r => (r.1.players 0).Deaths) = some (-9223372036854775808) := by
  refine ⟨by decide, by decide, by decide, by decide⟩

set_option maxRecDepth 1000000 in
/-- C3, as stated, fails: in `arenaWallAB` the object at address 1 is a current
player whose identifier is the wall value 255; the alive current player at
address 0 heads, with the up key, for the wall cell (1, 0), and the loop body
of `tick` raises the Kills of the player at address 1 from 0 to 1. -/
theorem tickBody_wall_credits_wall_id :
    ((arenaWallAB.players 0).dead = false ∧
        arenaWallAB.currPlayers (arenaWallAB.players 0).id = some 0 ∧
        IsDest upKey arenaWallAB 0 1 0 ∧ Board.get arenaWallAB.board 1 0 = some 255 ∧
        WallBordered 255 arenaWallAB.board 32 32 ∧
        (arenaWallAB.players 1).id = 255 ∧ arenaWallAB.currPlayers 255 = some 1) ∧
      (arenaWallAB.players 1).Kills = 0 ∧
      (tickBody upKey arenaWallAB 0).map (fun g => ((g.players 0).dead, (g.players 1).Kills)) =
        some (true, 1) := by
  refine ⟨by decide, by decide, by decide⟩

set_option maxRecDepth 100000 in
theorem tickBody_wall_collision_witness :
    ∃ g1, tickBody upKey arenaA 0 = some g1 ∧ (g1.players 0).dead = true ∧
      (∀ q, (g1.players q).Kills = (arenaA.players q).Kills) ∧
      g1.board = arenaA.board ∧ Board.get g1.board 1 0 = some 255 ∧
      (g1.players 0).x = 1 ∧ (g1.players 0).y = 0 ∧ 1 < 32 ∧ 0 < 32 :=
  tickBody_wall_collision 255 upKey arenaA 0 32 32 1 0 (by decide) (by decide) (by decide)
    (by decide) (by decide) (by decide) (by decide) (by decide) (by decide) (by decide)

theorem dimCheck_ok_iff (c : Config) :
    dimCheck c = Except.ok () ↔ (32 ≤ c.Width ∧ c.Width ≤ 255 ∧ 32 ≤ c.Height ∧ c.Height ≤ 255) := by
  unfold dimCheck
  constructor
  · intro h
    split_ifs at h with h1 h2
    omega
  · intro h
    have h1 : ¬ (c.Height < 32 ∨ c.Height > 255) := by omega
    have h2 : ¬ (c.Width < 32 ∨ c.Width > 255) := by omega
    simp [h1, h2]

/-- C4: the dimension check of `NewGame` refuses width 256 (and height 256)
with an error whose own text names 32-256 as the permitted range, and
`NewGame` then fails whatever its collaborators answer. -/
theorem NewGame_refuses_256 :
    dimCheck { Width := 256, Height := 32, MaxPlayers := 6, RespawnDelay := 0 } =
        Except.error "width must be between 32-256" ∧
      dimCheck { Width := 32, Height := 256, MaxPlayers := 6, RespawnDelay := 0 } =
        Except.error "height must be between 32-256" ∧
      ∀ env heap, ∃ e,
        NewGame { Width := 256, Height := 32, MaxPlayers := 6, RespawnDelay := 0 } env heap =
          Except.error e := by
  refine ⟨by simp [dimCheck], by simp [dimCheck], ?_⟩
  intro env heap
  exact ⟨"width must be between 32-256", by simp [NewGame, dimCheck]⟩

theorem NewGame_board_dims (c : Config) (env : Env) (heap : Ptr → Player) (g : Game)
    (h : NewGame c env heap = Except.ok g) :
    32 ≤ c.Width ∧ c.Width ≤ 255 ∧ 32 ≤ c.Height ∧ c.Height ≤ 255 ∧
      Board.hasDims g.board c.Width.toNat c.Height.toNat ∧
      g.bw = c.Height ∧ g.bh = c.Width ∧
      ∀ x < c.Width.toNat, ∀ y < c.Height.toNat, Board.get g.board x y = some blank := by
  unfold NewGame at h
  cases hdc : dimCheck c with
  | error e => rw [hdc] at h; cases h
  | ok u =>
    have hr := (dimCheck_ok_iff c).1 (by rw [hdc])
    obtain ⟨h1, h2, h3, h4⟩ := hr
    rw [hdc] at h
    simp only at h
    by_cases hdb : env.dbFails = true
    · simp [hdb] at h
    · have hw : toUint8 c.Width = c.Width.toNat := by unfold toUint8; omega
      have hh : toUint8 c.Height = c.Height.toNat := by unfold toUint8; omega
      have hnb : NewBoard (toUint8 c.Width) (toUint8 c.Height) =
          Except.ok (List.replicate c.Width.toNat (List.replicate c.Height.toNat blank)) := by
        rw [hw, hh]
        unfold NewBoard
        have : ¬ (c.Width.toNat < 32 ∨ c.Height.toNat < 32) := by omega
        simp [this]
      rw [hnb] at h
      by_cases hla : env.loadAllFails = true
      · simp [hdb, hla] at h
      · simp [hdb, hla] at h
        subst h
        refine ⟨h1, h2, h3, h4, ⟨by simp, ?_⟩, rfl, rfl, ?_⟩
        · intro col hcol
          rw [List.eq_of_mem_replicate hcol]; simp
        · intro x hx y hy
          rw [Board.get_eq_some_iff]
          exact ⟨List.replicate c.Height.toNat blank, by simp [List.getElem?_replicate, hx],
            by simp [List.getElem?_replicate, hy]⟩

theorem remove_total (g : Game) (p : Ptr) (W H : Nat) (hd : Board.hasDims g.board W H)
    (hbw : g.bw = (W : Int)) (hbh : g.bh = (H : Int)) :
    ∃ g1 tr, remove g p = some (g1, tr) ∧
      sleepBeforeSweep tr = min g.config.RespawnDelay deathTrail ∧
      Board.hasDims g1.board W H := by
  obtain ⟨b1, hb1, hd1⟩ := sweep_total
    (g.modifyPlayer p (fun pl => { pl with waiting := true })) p W H hd hbw hbh
  unfold remove
  simp only [hb1]
  refine ⟨_, _, rfl, ?_, hd1⟩
  by_cases hD : g.config.RespawnDelay > deathTrail
  · simp only [hD, if_true]
    simp [sleepBeforeSweep]
    omega
  · simp only [hD, if_false]
    simp [sleepBeforeSweep]
    omega

/-- C9, as stated, fails: with a respawn delay of half a second `remove`
sleeps half a second, less than `deathTrail`, before it sweeps the board. -/
theorem remove_short_delay_sweeps_early :
    ∃ g1 tr, remove arenaQuick 0 = some (g1, tr) ∧ sleepBeforeSweep tr = 500000000 ∧
      sleepBeforeSweep tr < deathTrail := by
  obtain ⟨g1, tr, h1, h2, _⟩ := remove_total arenaQuick 0 32 32 (by decide) (by decide)
    (by decide)
  refine ⟨g1, tr, h1, ?_, ?_⟩
  · rw [h2]; decide
  · rw [h2]; decide

/-- C9, amended: on a state whose board is `bw` by `bh`, `remove` returns and
the sleeps that come before the sweep total the smaller of the respawn delay
and `deathTrail`; the total reaches `deathTrail` exactly when the respawn
delay is at least `deathTrail`. -/
theorem remove_sleeps_min_before_sweep (g : Game) (p : Ptr) (W H : Nat)
    (hd : Board.hasDims g.board W H) (hbw : g.bw = (W : Int)) (hbh : g.bh = (H : Int)) :
    ∃ g1 tr, remove g p = some (g1, tr) ∧
      sleepBeforeSweep tr = min g.config.RespawnDelay deathTrail ∧
      (deathTrail ≤ sleepBeforeSweep tr ↔ deathTrail ≤ g.config.RespawnDelay) := by
  obtain ⟨g1, tr, h1, h2, _⟩ := remove_total g p W H hd hbw hbh
  refine ⟨g1, tr, h1, h2, ?_⟩
  rw [h2]
  omega

set_option maxRecDepth 100000 in
theorem remove_sleeps_min_before_sweep_witness :
    ∃ g1 tr, remove arena 0 = some (g1, tr) ∧
      sleepBeforeSweep tr = min arena.config.RespawnDelay deathTrail ∧
      (deathTrail ≤ sleepBeforeSweep tr ↔ deathTrail ≤ arena.config.RespawnDelay) :=
  remove_sleeps_min_before_sweep arena 0 32 32 (by decide) (by decide) (by decide)

theorem candidate_interior (draws : Nat → Nat) (W H i : Nat) (hW3 : 3 ≤ W) (hW : W ≤ 256)
    (hH3 : 3 ≤ H) (hH : H ≤ 256) :
    ∃ cx cy cd, candidate draws (W : Int) (H : Int) i = some (cx, cy, cd) ∧
      0 < cx ∧ cx + 1 < W ∧ 0 < cy ∧ cy + 1 < H ∧ Cardinal cd := by
  have h1 : ¬ ((W : Int) - 2 ≤ 0) := by omega
  have h2 : ¬ ((H : Int) - 2 ≤ 0) := by omega
  have e1 : ((W : Int) - 2).toNat = W - 2 := by omega
  have e2 : ((H : Int) - 2).toNat = H - 2 := by omega
  have m1 : draws (3 * i) % (W - 2) < W - 2 := Nat.mod_lt _ (by omega)
  have m2 : draws (3 * i + 1) % (H - 2) < H - 2 := Nat.mod_lt _ (by omega)
  have m3 : draws (3 * i + 2) % 4 < 4 := Nat.mod_lt _ (by omega)
  refine ⟨(draws (3 * i) % (W - 2) % 256 + 1) % 256, (draws (3 * i + 1) % (H - 2) % 256 + 1) % 256,
    (draws (3 * i + 2) % 4 + 65) % 256, ?_, ?_, ?_, ?_, ?_, ?_⟩
  · simp [candidate, Intn, h1, h2, e1, e2]
  · omega
  · omega
  · omega
  · omega
  · unfold Cardinal dup ddown dright dleft
    omega

theorem cellAt_natCast (b : Board) (x y : Nat) :
    cellAt b (x : Int) (y : Int) = Board.get b x y := by
  unfold cellAt
  have : ¬ ((x : Int) < 0 ∨ (y : Int) < 0) := by omega
  simp [this]

theorem pathBlank_succ (b : Board) (x y d n x1 y1 : Nat)
    (hx1 : (x1 : Int) = (x : Int) + dx d) (hy1 : (y1 : Int) = (y : Int) + dy d) :
    PathBlank b x y d (n + 1) ↔ (Board.get b x1 y1 = some blank ∧ PathBlank b x1 y1 d n) := by
  unfold PathBlank
  constructor
  · intro h
    constructor
    · have h0 := h 0 (by omega)
      simp only [Nat.cast_zero, zero_add, one_mul] at h0
      rw [← hx1, ← hy1, cellAt_natCast] at h0
      exact h0
    · intro k hk
      have hk1 := h (k + 1) (by omega)
      have ex : (x : Int) + (((k + 1 : Nat) : Int) + 1) * dx d =
          (x1 : Int) + ((k : Int) + 1) * dx d := by rw [hx1]; push_cast; ring
      have ey : (y : Int) + (((k + 1 : Nat) : Int) + 1) * dy d =
          (y1 : Int) + ((k : Int) + 1) * dy d := by rw [hy1]; push_cast; ring
      rw [ex, ey] at hk1
      exact hk1
  · rintro ⟨h0, h⟩ k hk
    cases k with
    | zero =>
      simp only [Nat.cast_zero, zero_add, one_mul]
      rw [← hx1, ← hy1, cellAt_natCast]
      exact h0
    | succ k =>
      have hk1 := h k (by omega)
      have ex : (x : Int) + (((k + 1 : Nat) : Int) + 1) * dx d =
          (x1 : Int) + ((k : Int) + 1) * dx d := by rw [hx1]; push_cast; ring
      have ey : (y : Int) + (((k + 1 : Nat) : Int) + 1) * dy d =
          (y1 : Int) + ((k : Int) + 1) * dy d := by rw [hy1]; push_cast; ring
      rw [ex, ey]
      exact hk1

theorem move_interior {d x y W H : Nat} (hx0 : 0 < x) (hxW : x + 1 < W) (hy0 : 0 < y)
    (hyH : y + 1 < H) (hW : W ≤ 256) (hH : H ≤ 256) :
    ((moveX d x : Nat) : Int) = (x : Int) + dx d ∧ ((moveY d y : Nat) : Int) = (y : Int) + dy d ∧
      moveX d x < W ∧ moveY d y < H := by
  unfold moveX moveY dx dy
  refine ⟨?_, ?_, ?_, ?_⟩ <;> split_ifs <;> omega

theorem lookahead_walled (wall : ID) (b : Board) (W H d : Nat)
    (hwb : WallBordered wall b W H) (hwall : wall ≠ blank) (hW : W ≤ 256) (hH : H ≤ 256) :
    ∀ (j x y : Nat), 0 < x → x + 1 < W → 0 < y → y + 1 < H →
      ∃ clear steps, lookahead b d j x y = some (clear, steps) ∧ steps ≤ j ∧
        (clear = true ↔ PathBlank b x y d j) := by
  intro j
  induction j with
  | zero =>
    intro x y _ _ _ _
    refine ⟨true, 0, rfl, Nat.le_refl 0, ?_⟩
    simp [PathBlank]
  | succ j ih =>
    intro x y hx0 hxW hy0 hyH
    obtain ⟨ex, ey, hmx, hmy⟩ := move_interior (d := d) hx0 hxW hy0 hyH hW hH
    obtain ⟨c, hc⟩ := Board.get_isSome_of_lt hwb.1 hmx hmy
    have hps := pathBlank_succ b x y d j (moveX d x) (moveY d y) ex ey
    unfold lookahead
    rw [hc]
    by_cases hcb : c = blank
    · subst hcb
      have hint : 0 < moveX d x ∧ moveX d x + 1 < W ∧ 0 < moveY d y ∧ moveY d y + 1 < H := by
        by_contra hn
        have hborder : moveX d x = 0 ∨ moveX d x + 1 = W ∨ moveY d y = 0 ∨
            moveY d y + 1 = H := by omega
        have := hwb.2 _ hmx _ hmy hborder
        rw [hc] at this
        exact hwall (Option.some.inj this).symm
      obtain ⟨cl, st, hl, hst, hiff⟩ := ih (moveX d x) (moveY d y) hint.1 hint.2.1 hint.2.2.1
        hint.2.2.2
      refine ⟨cl, st + 1, by simp [hl], by omega, ?_⟩
      rw [hps, hiff]
      simp [hc]
    · refine ⟨false, 1, by simp [hcb], by omega, ?_⟩
      rw [hps, hc]
      simp [hcb]

theorem clearAttempt_iff (draws : Nat → Nat) (b : Board) (bw bh : Int) (i cx cy cd : Nat)
    (hc : candidate draws bw bh i = some (cx, cy, cd)) :
    ClearAttempt draws b bw bh i ↔ PathBlank b cx cy cd respawnLookahead := by
  unfold ClearAttempt
  rw [hc]

theorem respawnLoop_spec (wall : ID) (draws : Nat → Nat) (p : Ptr) (b : Board) (W H : Nat)
    (hwb : WallBordered wall b W H) (hwall : wall ≠ blank)
    (hW3 : 3 ≤ W) (hW : W ≤ 256) (hH3 : 3 ≤ H) (hH : H ≤ 256) :
    ∀ (n i : Nat) (g : Game), g.board = b → g.bw = (W : Int) → g.bh = (H : Int) →
      ∃ g1 tr, respawnLoop draws p i n g = some (g1, tr) ∧
        (g1.board = b ∧ g1.bw = (W : Int) ∧ g1.bh = (H : Int) ∧
          g1.currPlayers = g.currPlayers ∧ g1.spawned = g.spawned ∧ g1.config = g.config) ∧
        (∀ q, q ≠ p → g1.players q = g.players q) ∧
        ((g1.players p).id = (g.players p).id ∧ (g1.players p).Kills = (g.players p).Kills ∧
          (g1.players p).Deaths = (g.players p).Deaths ∧
          (g1.players p).waiting = (g.players p).waiting) ∧
        tr.length ≤ n ∧ (∀ s ∈ tr, s ≤ respawnLookahead) ∧
        (((∀ k, i ≤ k → k < i + n → ¬ ClearAttempt draws b (W : Int) (H : Int) k) ∧
            tr.length = n ∧ (g1.players p).dead = (g.players p).dead ∧
            (n = 0 → g1.posOf p = g.posOf p) ∧
            (0 < n → candidate draws (W : Int) (H : Int) (i + n - 1) = some (g1.posOf p))) ∨
          (∃ k, i ≤ k ∧ k < i + n ∧ ClearAttempt draws b (W : Int) (H : Int) k ∧
            (∀ j, i ≤ j → j < k → ¬ ClearAttempt draws b (W : Int) (H : Int) j) ∧
            tr.length = k - i + 1 ∧ (g1.players p).dead = false ∧
            candidate draws (W : Int) (H : Int) k = some (g1.posOf p))) := by
  intro n
  induction n with
  | zero =>
    intro i g hb hbw hbh
    refine ⟨g, [], rfl, ⟨hb, hbw, hbh, rfl, rfl, rfl⟩, fun _ _ => rfl, ⟨rfl, rfl, rfl, rfl⟩,
      Nat.le_refl 0, by simp, Or.inl ⟨?_, rfl, rfl, fun _ => rfl, ?_⟩⟩
    · intro k h1 h2; omega
    · intro h; omega
  | succ n ih =>
    intro i g hb hbw hbh
    obtain ⟨cx, cy, cd, hcand, hx0, hxW, hy0, hyH, _⟩ :=
      candidate_interior draws W H i hW3 hW hH3 hH
    obtain ⟨cl, st, hl, hst, hiff⟩ :=
      lookahead_walled wall b W H cd hwb hwall hW hH respawnLookahead cx cy hx0 hxW hy0 hyH
    have hl1 : lookahead g.board cd respawnLookahead cx cy = some (cl, st) := by
      rw [hb]; exact hl
    have hclear := clearAttempt_iff draws b (W : Int) (H : Int) i cx cy cd hcand
    let G1 := g.modifyPlayer p (fun pl => { pl with x := cx, y := cy, d := cd, nextd := cd })
    have hG1p : G1.players p = { g.players p with x := cx, y := cy, d := cd, nextd := cd } := by
      simp [G1, Game.modifyPlayer]
    have hG1q : ∀ q, q ≠ p → G1.players q = g.players q := by
      intro q hq; simp [G1, Game.modifyPlayer, hq]
    cases cl with
    | true =>
      have hPB : ClearAttempt draws b (W : Int) (H : Int) i := hclear.2 (hiff.1 rfl)
      let G2 := G1.modifyPlayer p (fun pl => { pl with dead := false })
      have e : respawnLoop draws p i (n + 1) g = some (G2, [st]) := by
        rw [respawnLoop, hbw, hbh, hcand]
        simp [G2, G1, Game.modifyPlayer, hl1]
      have hG2p : G2.players p = { G1.players p with dead := false } := by
        simp [G2, Game.modifyPlayer]
      refine ⟨G2, [st], e, ⟨hb, hbw, hbh, rfl, rfl, rfl⟩, ?_, ?_, by simp, ?_, Or.inr ?_⟩
      · intro q hq
        have : G2.players q = G1.players q := by simp [G2, Game.modifyPlayer, hq]
        rw [this, hG1q q hq]
      · rw [hG2p, hG1p]; exact ⟨rfl, rfl, rfl, rfl⟩
      · intro s hs
        simp at hs
        rw [hs]; exact hst
      · refine ⟨i, Nat.le_refl i, by omega, hPB, ?_, by simp, ?_, ?_⟩
        · intro j h1 h2; omega
        · rw [hG2p]
        · rw [hcand]
          simp [Game.posOf, hG2p, hG1p]
    | false =>
      have hnPB : ¬ ClearAttempt draws b (W : Int) (H : Int) i := by
        intro h
        have := hiff.2 (hclear.1 h)
        cases this
      obtain ⟨g2, tr, hg2, hf, hq2, hp2, hlen, hsteps, hout⟩ := ih (i + 1) G1 hb hbw hbh
      have e : respawnLoop draws p i (n + 1) g = some (g2, st :: tr) := by
        rw [respawnLoop, hbw, hbh, hcand]
        simp only [Game.modifyPlayer, Function.update_same, hl1]
        have hg2' := hg2
        simp only [G1, Game.modifyPlayer] at hg2'
        simp [hg2']
      obtain ⟨hf1, hf2, hf3, hf4, hf5, hf6⟩ := hf
      refine ⟨g2, st :: tr, e, ⟨hf1, hf2, hf3, hf4, hf5, hf6⟩, ?_, ?_, by simp; omega, ?_, ?_⟩
      · intro q hq
        rw [hq2 q hq, hG1q q hq]
      · rw [hp2.1, hp2.2.1, hp2.2.2.1, hp2.2.2.2, hG1p]; exact ⟨rfl, rfl, rfl, rfl⟩
      · intro s hs
        rcases List.mem_cons.1 hs with h | h
        · rw [h]; exact hst
        · exact hsteps s h
      · rcases hout with ⟨hno, hlen2, hdead, hpos0, hpos⟩ | ⟨k, hk1, hk2, hck, hfirst, hlen2, hdead, hpos⟩
        · refine Or.inl ⟨?_, by simp [hlen2], ?_, ?_, ?_⟩
          · intro k h1 h2
            by_cases hki : k = i
            · rw [hki]; exact hnPB
            · exact hno k (by omega) (by omega)
          · rw [hdead, hG1p]
          · intro h; omega
          · intro _
            by_cases hn0 : n = 0
            · subst hn0
              have := hpos0 rfl
              rw [this]
              simp only [Nat.add_one_sub_one, Nat.add_zero, zero_add]
              rw [hcand]
              simp [Game.posOf, hG1p]
            · have := hpos (by omega)
              have e2 : i + (n + 1) - 1 = i + 1 + n - 1 := by omega
              rw [e2]; exact this
        · refine Or.inr ⟨k, by omega, by omega, hck, ?_, by simp [hlen2]; omega, hdead, hpos⟩
          intro j h1 h2
          by_cases hji : j = i
          · rw [hji]; exact hnPB
          · exact hfirst j (by omega) h2

theorem respawn_spec (wall : ID) (draws : Nat → Nat) (g : Game) (p : Ptr) (W H : Nat)
    (hg : WalledGame wall g W H) (hdead : (g.players p).dead = true) :
    ∃ g1 tr, respawn draws g p = some (g1, tr) ∧
      (g1.board = g.board ∧ g1.bw = g.bw ∧ g1.bh = g.bh ∧
        g1.currPlayers = g.currPlayers ∧ g1.spawned = g.spawned ∧ g1.config = g.config) ∧
      (∀ q, q ≠ p → g1.players q = g.players q) ∧
      ((g1.players p).id = (g.players p).id ∧ (g1.players p).Kills = (g.players p).Kills ∧
        (g1.players p).Deaths = (g.players p).Deaths ∧
        (g1.players p).waiting = (g.players p).waiting) ∧
      tr.length ≤ respawnAttempts ∧ (∀ s ∈ tr, s ≤ respawnLookahead) ∧
      (((∀ k, k < respawnAttempts → ¬ ClearAttempt draws g.board g.bw g.bh k) ∧
          (g1.players p).dead = true ∧
          candidate draws g.bw g.bh (respawnAttempts - 1) = some (g1.posOf p)) ∨
        (∃ k, k < respawnAttempts ∧ ClearAttempt draws g.board g.bw g.bh k ∧
          (∀ j, j < k → ¬ ClearAttempt draws g.board g.bw g.bh j) ∧
          (g1.players p).dead = false ∧
          candidate draws g.bw g.bh k = some (g1.posOf p))) := by
  obtain ⟨hwb, hwall, hbw, hbh, hW3, hW, hH3, hH⟩ := hg
  obtain ⟨g1, tr, hr, hf, hq, hp, hlen, hst, hout⟩ :=
    respawnLoop_spec wall draws p g.board W H hwb hwall hW3 hW hH3 hH respawnAttempts 0 g rfl
      hbw hbh
  have e : respawn draws g p = some (g1, tr) := by
    unfold respawn
    simp [hdead, hr]
  obtain ⟨hf1, hf2, hf3, hf4, hf5, hf6⟩ := hf
  refine ⟨g1, tr, e, ⟨hf1, by rw [hf2, hbw], by rw [hf3, hbh], hf4, hf5, hf6⟩, hq, hp, hlen,
    hst, ?_⟩
  rw [hbw, hbh]
  rcases hout with ⟨hno, _, hd, _, hpos⟩ | ⟨k, _, hk, hck, hfirst, _, hd, hpos⟩
  · refine Or.inl ⟨?_, by rw [hd, hdead], ?_⟩
    · intro k hk
      exact hno k (Nat.zero_le k) (by omega)
    · have := hpos (by unfold respawnAttempts; omega)
      simpa using this
  · refine Or.inr ⟨k, by omega, hck, ?_, hd, hpos⟩
    intro j hj
    exact hfirst j (Nat.zero_le j) hj

set_option maxRecDepth 1000000 in
/-- C7, as stated, fails twice.  On the board `NewGame` returns, before
`Play` has built the walls, `respawn` panics on an index out of range and
does not return.  On the walled arena, with draws none of whose attempts has
a clear path, the player is still dead but its `x` and `y` are no longer the
ones it had before the call. -/
theorem respawn_panics_or_overwrites :
    respawn (cycle3 0 0 0) bareArena 0 = none ∧
      ((∀ k < respawnAttempts, ¬ ClearAttempt (cycle3 0 0 0) arena.board arena.bw arena.bh k) ∧
        (respawn (cycle3 0 0 0) arena 0).map (fun r => ((r.1.players 0).dead, r.1.posOf 0)) =
          some (true, (1, 1, 65)) ∧
        arena.posOf 0 = (0, 0, 65)) := by
  refine ⟨?_, ?_, ?_, ?_⟩
  · rfl
  · decide
  · rfl
  · rfl

/-- C7, amended: on a wall-bordered board whose size is `bw` by `bh`,
`respawn` on a dead player returns after at most `respawnAttempts` attempts of
at most `respawnLookahead` lookahead iterations each, leaving the board as it
was; if no attempt has a fully clear lookahead path the player is still dead,
and its `x`, `y` and direction are the candidate of the last attempt. -/
theorem respawn_bounded (wall : ID) (draws : Nat → Nat) (g : Game) (p : Ptr) (W H : Nat)
    (hg : WalledGame wall g W H) (hdead : (g.players p).dead = true) :
    ∃ g1 tr, respawn draws g p = some (g1, tr) ∧
      tr.length ≤ respawnAttempts ∧ (∀ s ∈ tr, s ≤ respawnLookahead) ∧
      g1.board = g.board ∧
      ((∀ k < respawnAttempts, ¬ ClearAttempt draws g.board g.bw g.bh k) →
        (g1.players p).dead = true ∧
        candidate draws g.bw g.bh (respawnAttempts - 1) = some (g1.posOf p)) := by
  obtain ⟨g1, tr, hr, hf, _, _, hlen, hst, hout⟩ := respawn_spec wall draws g p W H hg hdead
  refine ⟨g1, tr, hr, hlen, hst, hf.1, ?_⟩
  intro hno
  rcases hout with ⟨_, hd, hpos⟩ | ⟨k, hk, hck, _⟩
  · exact ⟨hd, hpos⟩
  · exact absurd hck (hno k hk)

set_option maxRecDepth 1000000 in
theorem respawn_bounded_witness :
    ∃ g1 tr, respawn (cycle3 0 0 0) arena 0 = some (g1, tr) ∧
      tr.length ≤ respawnAttempts ∧ (∀ s ∈ tr, s ≤ respawnLookahead) ∧
      g1.board = arena.board ∧
      ((∀ k < respawnAttempts, ¬ ClearAttempt (cycle3 0 0 0) arena.board arena.bw arena.bh k) →
        (g1.players 0).dead = true ∧
        candidate (cycle3 0 0 0) arena.bw arena.bh (respawnAttempts - 1) = some (g1.posOf 0)) :=
  respawn_bounded 255 (cycle3 0 0 0) arena 0 32 32 (by decide) (by decide)

/-- C10: on a wall-bordered board whose size is `bw` by `bh`, `respawn` on a
dead player returns, and if it leaves the player alive then the committed
position and direction are the candidate of an attempt `k`: the position is an
interior cell, the direction is one of the four constants, each of the
`respawnLookahead` cells ahead of it is inside the board and blank, and no
attempt before `k` has a fully clear path. -/
theorem respawn_commits_first_clear (wall : ID) (draws : Nat → Nat) (g : Game) (p : Ptr)
    (W H : Nat) (hg : WalledGame wall g W H) (hdead : (g.players p).dead = true) :
    ∃ g1 tr, respawn draws g p = some (g1, tr) ∧
      ((g1.players p).dead = false →
        ∃ k, k < respawnAttempts ∧ candidate draws g.bw g.bh k = some (g1.posOf p) ∧
          (0 < (g1.players p).x ∧ (g1.players p).x + 1 < W ∧
            0 < (g1.players p).y ∧ (g1.players p).y + 1 < H) ∧
          Cardinal (g1.players p).d ∧
          PathBlank g1.board (g1.players p).x (g1.players p).y (g1.players p).d
            respawnLookahead ∧
          ∀ j < k, ¬ ClearAttempt draws g.board g.bw g.bh j) := by
  obtain ⟨g1, tr, hr, hf, _, _, _, _, hout⟩ := respawn_spec wall draws g p W H hg hdead
  refine ⟨g1, tr, hr, ?_⟩
  intro halive
  rcases hout with ⟨_, hd, _⟩ | ⟨k, hk, hck, hfirst, _, hpos⟩
  · rw [hd] at halive; cases halive
  · obtain ⟨_, _, hbw, hbh, hW3, hW, hH3, hH⟩ := hg
    obtain ⟨cx, cy, cd, hc, h1, h2, h3, h4, h5⟩ := candidate_interior draws W H k hW3 hW hH3 hH
    rw [hbw, hbh] at hpos
    rw [hc] at hpos
    have hp : g1.posOf p = (cx, cy, cd) := (Option.some.inj hpos).symm
    have hx : (g1.players p).x = cx := congrArg (fun t => t.1) hp
    have hy : (g1.players p).y = cy := congrArg (fun t => t.2.1) hp
    have hdd : (g1.players p).d = cd := congrArg (fun t => t.2.2) hp
    refine ⟨k, hk, ?_, ?_, ?_, ?_, hfirst⟩
    · rw [hbw, hbh, hc, hp]
    · rw [hx, hy]; exact ⟨h1, h2, h3, h4⟩
    · rw [hdd]; exact h5
    · rw [hx, hy, hdd, hf.1]
      rw [hbw, hbh] at hck
      exact (clearAttempt_iff draws g.board _ _ k cx cy cd hc).1 hck

set_option maxRecDepth 1000000 in
theorem respawn_commits_first_clear_witness :
    ∃ g1 tr, respawn (cycle3 4 4 2) arena 1 = some (g1, tr) ∧
      ((g1.players 1).dead = false →
        ∃ k, k < respawnAttempts ∧
          candidate (cycle3 4 4 2) arena.bw arena.bh k = some (g1.posOf 1) ∧
          (0 < (g1.players 1).x ∧ (g1.players 1).x + 1 < 32 ∧
            0 < (g1.players 1).y ∧ (g1.players 1).y + 1 < 32) ∧
          Cardinal (g1.players 1).d ∧
          PathBlank g1.board (g1.players 1).x (g1.players 1).y (g1.players 1).d
            respawnLookahead ∧
          ∀ j < k, ¬ ClearAttempt (cycle3 4 4 2) arena.board arena.bw arena.bh j) :=
  respawn_commits_first_clear 255 (cycle3 4 4 2) arena 1 32 32 (by decide) (by decide)

theorem tickBody_dead (keys : Keys) (g : Game) (p : Ptr) (hdead : (g.players p).dead = true) :
    tickBody keys g p = some g := by
  simp [tickBody, hdead]

set_option maxRecDepth 1000000 in
/-- C8, as stated, fails: in the state `arenaDead` the player at address 0 is
a current player, dead, with its waiting flag false, and the draws
`4, 4, 2, ...` give the respawn search a clear first candidate, yet after the
loop body of `tick` the player is still dead and where it was. -/
theorem tickBody_never_respawns :
    (arenaDead.currPlayers (arenaDead.players 0).id = some 0 ∧
        (arenaDead.players 0).dead = true ∧ (arenaDead.players 0).waiting = false) ∧
      ClearAttempt (cycle3 4 4 2) arenaDead.board arenaDead.bw arenaDead.bh 0 ∧
      (respawn (cycle3 4 4 2) arenaDead 0).map (fun r => (r.1.players 0).dead) = some false ∧
      (tickBody noKeys arenaDead 0).map (fun g => ((g.players 0).dead, g.posOf 0)) =
        some (true, arenaDead.posOf 0) := by
  refine ⟨by decide, by decide, by rfl, by rfl⟩

/-- C8, amended: the loop body of `tick` leaves a dead player, and the whole
state, exactly as it was, whatever the waiting flag; the respawn search runs
from `AddPlayer` only, which on a wall-bordered board returns with the player
registered as current and, when attempt `k` is the first with a fully clear
lookahead path, alive at the candidate of attempt `k`. -/
theorem tick_skips_dead_addPlayer_respawns (wall : ID) (keys : Keys) (draws : Nat → Nat)
    (loaded : Option (Int × Int)) (g : Game) (p : Ptr) (W H : Nat)
    (hg : WalledGame wall g W H) (hdead : (g.players p).dead = true) :
    tickBody keys g p = some g ∧
      ∃ g1, AddPlayer draws loaded g p = some g1 ∧
        g1.currPlayers (g.players p).id = some p ∧
        ∀ k < respawnAttempts, ClearAttempt draws g.board g.bw g.bh k →
          (∀ j < k, ¬ ClearAttempt draws g.board g.bw g.bh j) →
          (g1.players p).dead = false ∧ candidate draws g.bw g.bh k = some (g1.posOf p) := by
  refine ⟨tickBody_dead keys g p hdead, ?_⟩
  let g0 : Game :=
    match loaded with
    | none => g
    | some (k, d) => g.modifyPlayer p (fun pl => { pl with Kills := k, Deaths := d })
  have h0 : g0.board = g.board ∧ g0.bw = g.bw ∧ g0.bh = g.bh ∧
      (g0.players p).dead = (g.players p).dead ∧ (g0.players p).id = (g.players p).id := by
    cases loaded with
    | none => exact ⟨rfl, rfl, rfl, rfl, rfl⟩
    | some kd => simp [g0, Game.modifyPlayer]
  obtain ⟨hb0, hbw0, hbh0, hd0, hid0⟩ := h0
  have hg0 : WalledGame wall g0 W H := by
    unfold WalledGame at hg ⊢
    rw [hb0, hbw0, hbh0]; exact hg
  obtain ⟨g2, tr, hr, _, _, hp, _, _, hout⟩ :=
    respawn_spec wall draws g0 p W H hg0 (by rw [hd0]; exact hdead)
  have e : AddPlayer draws loaded g p = some
      { g2 with currPlayers := Function.update g2.currPlayers (g2.players p).id (some p) } := by
    unfold AddPlayer
    simp only [g0] at hr
    simp only [hr]
  refine ⟨_, e, ?_, ?_⟩
  · show Function.update g2.currPlayers (g2.players p).id (some p) (g.players p).id = some p
    rw [hp.1, hid0]; simp
  · intro k hk hck hfirst
    show (g2.players p).dead = false ∧ candidate draws g.bw g.bh k = some (g2.posOf p)
    rw [hb0, hbw0, hbh0] at hout
    rcases hout with ⟨hno, _, _⟩ | ⟨k1, hk1, hck1, hfirst1, hd, hpos⟩
    · exact absurd hck (hno k hk)
    · have hkk : k = k1 := by
        rcases Nat.lt_trichotomy k k1 with h | h | h
        · exact absurd hck (hfirst1 k h)
        · exact h
        · exact absurd hck1 (hfirst k1 h)
      rw [hkk]; exact ⟨hd, hpos⟩

set_option maxRecDepth 1000000 in
theorem tick_skips_dead_addPlayer_respawns_witness :
    tickBody noKeys arenaDead 0 = some arenaDead ∧
      ∃ g1, AddPlayer (cycle3 4 4 2) none arenaDead 0 = some g1 ∧
        g1.currPlayers (arenaDead.players 0).id = some 0 ∧
        ∀ k < respawnAttempts,
          ClearAttempt (cycle3 4 4 2) arenaDead.board arenaDead.bw arenaDead.bh k →
          (∀ j < k, ¬ ClearAttempt (cycle3 4 4 2) arenaDead.board arenaDead.bw arenaDead.bh j) →
          (g1.players 0).dead = false ∧
            candidate (cycle3 4 4 2) arenaDead.bw arenaDead.bh k = some (g1.posOf 0) :=
  tick_skips_dead_addPlayer_respawns 255 noKeys (cycle3 4 4 2) none arenaDead 0 32 32
    (by decide) (by decide)

theorem forLoop_none {σ : Type} (body : Nat → σ → Option σ) (P : σ → Prop) (K : Nat)
    (hok : ∀ k s, k < K → P s → ∃ s1, body k s = some s1 ∧ P s1)
    (hfail : ∀ s, P s → body K s = none) :
    ∀ (n i : Nat) (s : σ), i ≤ K → K < i + n → P s → forLoop body i n s = none := by
  intro n
  induction n with
  | zero => intro i s h1 h2 _; omega
  | succ n ih =>
    intro i s h1 h2 hs
    unfold forLoop
    by_cases hiK : i = K
    · rw [hiK, hfail s hs]
    · obtain ⟨s1, hs1, hP1⟩ := hok i s (by omega) hs
      rw [hs1]
      exact ih (i + 1) s1 (by omega) (by omega) hP1

theorem setI_natCast (b : Board) (x y : Nat) (v : ID) :
    Board.setI b (x : Int) (y : Int) v = Board.set b x y v := by
  unfold Board.setI
  have : ¬ ((x : Int) < 0 ∨ (y : Int) < 0) := by omega
  simp [this]

theorem Board.set_none_of_col {b : Board} {W H : Nat} (hd : Board.hasDims b W H) (y : Nat)
    (v : ID) : Board.set b W y v = none := by
  unfold Board.set
  rw [List.getElem?_eq_none (by rw [hd.1])]

theorem Board.set_none_of_row {b : Board} {W H : Nat} (hd : Board.hasDims b W H) (x y : Nat)
    (hy : H ≤ y) (v : ID) : Board.set b x y v = none := by
  unfold Board.set
  cases hc : b[x]? with
  | none => rfl
  | some col =>
    have hx : x < b.length := by
      by_contra hn
      rw [List.getElem?_eq_none (by omega)] at hc
      cases hc
    have hmem : col ∈ b := by
      rw [List.getElem?_eq_getElem hx] at hc
      cases hc
      exact List.getElem_mem _
    have := hd.2 col hmem
    have hn : ¬ y < col.length := by omega
    simp [hn]

theorem Play_none_of_ne (wall : ID) (g : Game) (W H : Nat) (hd : Board.hasDims g.board W H)
    (hW : 1 ≤ W) (hH : 1 ≤ H) (hbw : g.bw = (H : Int)) (hbh : g.bh = (W : Int))
    (hne : W ≠ H) : Play wall g = none := by
  have hloop : forLoop (wallRow wall g.bh) 0 g.bw.toNat g.board = none := by
    have hn : g.bw.toNat = H := by rw [hbw]; simp
    rw [hn, hbh]
    rcases Nat.lt_or_gt_of_ne hne with hlt | hgt
    · refine forLoop_none _ (fun b => Board.hasDims b W H) W ?_ ?_ H 0 g.board (Nat.zero_le W)
        (by omega) hd
      · intro k b hk hb
        obtain ⟨b1, hb1⟩ := Board.set_isSome_of_lt hb hk (show 0 < H by omega) wall
        have hb1d := Board.set_hasDims hb1 hb
        obtain ⟨b2, hb2⟩ := Board.set_isSome_of_lt hb1d hk (show W - 1 < H by omega) wall
        refine ⟨b2, ?_, Board.set_hasDims hb2 hb1d⟩
        unfold wallRow
        have e0 : Board.setI b (k : Int) 0 wall = some b1 := by
          have := setI_natCast b k 0 wall
          simp only [Nat.cast_zero] at this
          rw [this, hb1]
        have e1 : Board.setI b1 (k : Int) ((W : Int) - 1) wall = some b2 := by
          have := setI_natCast b1 k (W - 1) wall
          have hc : (((W - 1 : Nat)) : Int) = (W : Int) - 1 := by omega
          rw [hc] at this
          rw [this, hb2]
        simp [e0, e1]
      · intro b hb
        unfold wallRow
        have e0 : Board.setI b (W : Int) 0 wall = none := by
          have := setI_natCast b W 0 wall
          simp only [Nat.cast_zero] at this
          rw [this, Board.set_none_of_col hb]
        simp [e0]
    · refine forLoop_none _ (fun b => Board.hasDims b W H) 0 ?_ ?_ H 0 g.board (Nat.le_refl 0)
        (by omega) hd
      · intro k b hk _; omega
      · intro b hb
        unfold wallRow
        obtain ⟨b1, hb1⟩ := Board.set_isSome_of_lt hb (show 0 < W by omega)
          (show 0 < H by omega) wall
        have hb1d := Board.set_hasDims hb1 hb
        have e0 : Board.setI b ((0 : Nat) : Int) 0 wall = some b1 := by
          have := setI_natCast b 0 0 wall
          simp only [Nat.cast_zero] at this
          simp only [Nat.cast_zero]
          rw [this, hb1]
        have e1 : Board.setI b1 ((0 : Nat) : Int) ((W : Int) - 1) wall = none := by
          have := setI_natCast b1 0 (W - 1) wall
          have hc : (((W - 1 : Nat)) : Int) = (W : Int) - 1 := by omega
          rw [hc] at this
          rw [this, Board.set_none_of_row hb1d 0 (W - 1) (by omega)]
        simp only [Nat.cast_zero] at e0 e1
        simp [e0, e1]
  unfold Play
  rw [hloop]

theorem NewGame_Play_none (wall : ID) (c : Config) (env : Env) (heap : Ptr → Player) (g : Game)
    (h : NewGame c env heap = Except.ok g) (hne : c.Width ≠ c.Height) : Play wall g = none := by
  obtain ⟨h1, h2, h3, h4, hd, hbw, hbh, _⟩ := NewGame_board_dims c env heap g h
  refine Play_none_of_ne wall g c.Width.toNat c.Height.toNat hd (by omega) (by omega) ?_ ?_ ?_
  · rw [hbw]; omega
  · rw [hbh]; omega
  · omega

/-- C5: for the accepted configuration of width 32 and height 33, and for
the one of width 33 and height 32, `NewGame` succeeds with `bw` the height and
`bh` the width, and the wall loops of `Play` then index a cell outside the
32-by-33 (33-by-32) grid: `Play` panics, whatever the value of `wall`. -/
theorem Play_panics_when_not_square (wall : ID) :
    (∃ g, NewGame tallConfig { dbFails := false, loadAllFails := false } demoHeap =
        Except.ok g ∧ g.bw = 33 ∧ g.bh = 32 ∧ Board.hasDims g.board 32 33 ∧
        Play wall g = none) ∧
      (∃ g, NewGame wideConfig { dbFails := false, loadAllFails := false } demoHeap =
        Except.ok g ∧ g.bw = 32 ∧ g.bh = 33 ∧ Board.hasDims g.board 33 32 ∧
        Play wall g = none) := by
  have e1 : ∃ g, NewGame tallConfig { dbFails := false, loadAllFails := false } demoHeap =
      Except.ok g := ⟨_, rfl⟩
  have e2 : ∃ g, NewGame wideConfig { dbFails := false, loadAllFails := false } demoHeap =
      Except.ok g := ⟨_, rfl⟩
  obtain ⟨g1, hg1⟩ := e1
  obtain ⟨g2, hg2⟩ := e2
  obtain ⟨_, _, _, _, hd1, hbw1, hbh1, _⟩ := NewGame_board_dims _ _ _ _ hg1
  obtain ⟨_, _, _, _, hd2, hbw2, hbh2, _⟩ := NewGame_board_dims _ _ _ _ hg2
  refine ⟨⟨g1, hg1, hbw1, hbh1, hd1, ?_⟩, ⟨g2, hg2, hbw2, hbh2, hd2, ?_⟩⟩
  · exact NewGame_Play_none wall _ _ _ g1 hg1 (by decide)
  · exact NewGame_Play_none wall _ _ _ g2 hg2 (by decide)

theorem WallBordered.set {wall : ID} {b b1 : Board} {W H x y : Nat} {v : ID}
    (hwb : WallBordered wall b W H) (hs : Board.set b x y v = some b1)
    (hnw : Board.get b x y ≠ some wall) : WallBordered wall b1 W H := by
  refine ⟨Board.set_hasDims hs hwb.1, ?_⟩
  intro a ha c hc hborder
  by_cases hxy : a = x ∧ c = y
  · obtain ⟨rfl, rfl⟩ := hxy
    exact absurd (hwb.2 a ha c hc hborder) hnw
  · rw [Board.get_set_other hs a c (by tauto)]
    exact hwb.2 a ha c hc hborder

theorem interior_of_blank {wall : ID} {b : Board} {W H x y : Nat}
    (hwb : WallBordered wall b W H) (hwall : wall ≠ blank)
    (hget : Board.get b x y = some blank) : 0 < x ∧ x + 1 < W ∧ 0 < y ∧ y + 1 < H := by
  obtain ⟨hx, hy⟩ := Board.lt_of_get_eq_some hwb.1 hget
  by_contra hn
  have hborder : x = 0 ∨ x + 1 = W ∨ y = 0 ∨ y + 1 = H := by omega
  have := hwb.2 x hx y hy hborder
  rw [hget] at this
  exact hwall (Option.some.inj this).symm

theorem sweepCell_wallBordered {wall id : ID} {b b1 : Board} {W H w h : Nat}
    (hid : id ≠ wall) (hs : sweepCell id w h b = some b1) (hwb : WallBordered wall b W H) :
    WallBordered wall b1 W H := by
  unfold sweepCell at hs
  cases hc : Board.get b w h with
  | none => rw [hc] at hs; cases hs
  | some c =>
    rw [hc] at hs
    by_cases hcid : c = id
    · simp only [hcid, if_true] at hs
      refine WallBordered.set hwb hs ?_
      rw [hc, hcid]
      intro h1
      exact hid (Option.some.inj h1)
    · simp only [hcid, if_false] at hs
      rw [← Option.some.inj hs]; exact hwb

theorem sweep_wallBordered {wall : ID} (g : Game) (p : Ptr) (W H : Nat) (b1 : Board)
    (hid : (g.players p).id ≠ wall) (hs : sweep g p = some b1)
    (hwb : WallBordered wall g.board W H) : WallBordered wall b1 W H := by
  unfold sweep at hs
  refine forLoop_preserves _ (fun b => WallBordered wall b W H) ?_ _ _ _ _ hs hwb
  intro w b b2 hb hdb
  refine forLoop_preserves _ (fun b => WallBordered wall b W H) ?_ _ _ _ _ hb hdb
  intro h b3 b4 hb3 hdb3
  exact sweepCell_wallBordered hid hb3 hdb3

theorem GameInv.of_players {wall : ID} {W H : Nat} {g g1 : Game} (hg : GameInv wall W H g)
    (hb : g1.board = g.board) (hbw : g1.bw = g.bw) (hbh : g1.bh = g.bh)
    (hp : ∀ q, (g1.players q).id = (g.players q).id ∧
      ((g1.players q).dead = false → InteriorPos g1 q W H)) : GameInv wall W H g1 := by
  obtain ⟨hw, hid, _⟩ := hg
  refine ⟨?_, ?_, ?_⟩
  · unfold WalledGame at hw ⊢
    rw [hb, hbw, hbh]; exact hw
  · intro q; rw [(hp q).1]; exact hid q
  · intro q; exact (hp q).2

theorem GameInv.modify_flags {wall : ID} {W H : Nat} {g : Game} (hg : GameInv wall W H g)
    (p : Ptr) (f : Player → Player)
    (hf : ∀ pl, (f pl).id = pl.id ∧ (f pl).dead = pl.dead ∧ (f pl).x = pl.x ∧ (f pl).y = pl.y) :
    GameInv wall W H (g.modifyPlayer p f) := by
  refine GameInv.of_players hg rfl rfl rfl ?_
  intro q
  by_cases hq : q = p
  · subst hq
    obtain ⟨h1, h2, h3, h4⟩ := hf (g.players q)
    refine ⟨by simp [Game.modifyPlayer, h1], ?_⟩
    intro hal
    have hal2 : (g.players q).dead = false := by
      simpa [Game.modifyPlayer, h2] using hal
    have := hg.2.2 q hal2
    unfold InteriorPos at this ⊢
    simpa [Game.modifyPlayer, h3, h4] using this
  · refine ⟨by simp [Game.modifyPlayer, hq], ?_⟩
    intro hal
    have hal2 : (g.players q).dead = false := by
      simpa [Game.modifyPlayer, hq] using hal
    have := hg.2.2 q hal2
    unfold InteriorPos at this ⊢
    simpa [Game.modifyPlayer, hq] using this

theorem respawn_board (draws : Nat → Nat) (p : Ptr) :
    ∀ (n i : Nat) (g g1 : Game) (tr : List Nat),
      respawnLoop draws p i n g = some (g1, tr) → g1.board = g.board := by
  intro n
  induction n with
  | zero =>
    intro i g g1 tr h
    simp [respawnLoop] at h
    rw [← h.1]
  | succ n ih =>
    intro i g g1 tr h
    rw [respawnLoop] at h
    cases hc : candidate draws g.bw g.bh i with
    | none => rw [hc] at h; cases h
    | some c =>
      obtain ⟨cx, cy, cd⟩ := c
      rw [hc] at h
      simp only at h
      cases hl : lookahead (g.modifyPlayer p (fun pl =>
          { pl with x := cx, y := cy, d := cd, nextd := cd })).board
          ((g.modifyPlayer p (fun pl =>
            { pl with x := cx, y := cy, d := cd, nextd := cd })).players p).d respawnLookahead
          ((g.modifyPlayer p (fun pl =>
            { pl with x := cx, y := cy, d := cd, nextd := cd })).players p).x
          ((g.modifyPlayer p (fun pl =>
            { pl with x := cx, y := cy, d := cd, nextd := cd })).players p).y with
      | none => rw [hl] at h; cases h
      | some r =>
        obtain ⟨cl, st⟩ := r
        rw [hl] at h
        simp only at h
        cases cl with
        | true =>
          simp only [if_true] at h
          have := (Prod.mk.inj (Option.some.inj h)).1
          rw [← this]; rfl
        | false =>
          simp only [Bool.false_eq_true, if_false] at h
          cases hr : respawnLoop draws p (i + 1) n (g.modifyPlayer p (fun pl =>
              { pl with x := cx, y := cy, d := cd, nextd := cd })) with
          | none => rw [hr] at h; cases h
          | some r2 =>
            obtain ⟨g2, tr2⟩ := r2
            rw [hr] at h
            simp only at h
            have := (Prod.mk.inj (Option.some.inj h)).1
            rw [← this]
            have h3 := ih (i + 1) _ g2 tr2 hr
            exact h3

theorem respawn_inv {wall : ID} {W H : Nat} {g g1 : Game} (draws : Nat → Nat) (p : Ptr)
    (tr : List Nat) (hg : GameInv wall W H g) (hr : respawn draws g p = some (g1, tr)) :
    GameInv wall W H g1 := by
  by_cases hdead : (g.players p).dead = true
  · obtain ⟨g2, tr2, hr2, hf, hq, hp, _, _, hout⟩ :=
      respawn_spec wall draws g p W H hg.1 hdead
    rw [hr] at hr2
    obtain ⟨rfl, rfl⟩ := Prod.mk.inj (Option.some.inj hr2)
    refine GameInv.of_players hg hf.1 hf.2.1 hf.2.2.1 ?_
    intro q
    by_cases hqp : q = p
    · subst hqp
      refine ⟨hp.1, ?_⟩
      intro hal
      rcases hout with ⟨_, hd, _⟩ | ⟨k, _, _, _, _, hpos⟩
      · rw [hd] at hal; cases hal
      · obtain ⟨_, _, hbw, hbh, hW3, hW, hH3, hH⟩ := hg.1
        obtain ⟨cx, cy, cd, hc, h1, h2, h3, h4, _⟩ :=
          candidate_interior draws W H k hW3 hW hH3 hH
        rw [hbw, hbh, hc] at hpos
        have hpp : g1.posOf q = (cx, cy, cd) := (Option.some.inj hpos).symm
        have hx : (g1.players q).x = cx := congrArg (fun t => t.1) hpp
        have hy : (g1.players q).y = cy := congrArg (fun t => t.2.1) hpp
        unfold InteriorPos
        rw [hx, hy]; exact ⟨h1, h2, h3, h4⟩
    · rw [hq q hqp]
      refine ⟨rfl, ?_⟩
      intro hal
      have := hg.2.2 q hal
      unfold InteriorPos at this ⊢
      rw [hq q hqp]; exact this
  · have hd : (g.players p).dead = false := by
      cases h : (g.players p).dead with
      | true => exact absurd h hdead
      | false => rfl
    unfold respawn at hr
    simp only [hd, if_true] at hr
    obtain ⟨rfl, _⟩ := Prod.mk.inj (Option.some.inj hr)
    exact hg

theorem addPlayer_inv {wall : ID} {W H : Nat} {g g1 : Game} (draws : Nat → Nat)
    (loaded : Option (Int × Int)) (p : Ptr) (hg : GameInv wall W H g)
    (hr : AddPlayer draws loaded g p = some g1) : GameInv wall W H g1 := by
  have key : ∀ g0 : Game, GameInv wall W H g0 →
      (match respawn draws g0 p with
        | none => none
        | some (g2, _) =>
          some { g2 with
            currPlayers := Function.update g2.currPlayers (g2.players p).id (some p) }) =
        some g1 → GameInv wall W H g1 := by
    intro g0 hg0 h
    cases hre : respawn draws g0 p with
    | none => rw [hre] at h; cases h
    | some r =>
      obtain ⟨g2, tr⟩ := r
      rw [hre] at h
      simp only at h
      have hg2 := respawn_inv draws p tr hg0 hre
      rw [← Option.some.inj h]
      exact GameInv.of_players hg2 rfl rfl rfl (fun q => ⟨rfl, hg2.2.2 q⟩)
  cases loaded with
  | none => exact key g hg hr
  | some kd =>
    obtain ⟨k, d⟩ := kd
    exact key (g.modifyPlayer p (fun pl => { pl with Kills := k, Deaths := d }))
      (GameInv.modify_flags hg p _ (fun pl => ⟨rfl, rfl, rfl, rfl⟩)) hr

theorem tickBody_inv {wall : ID} {W H : Nat} {g g1 : Game} (keys : Keys) (p : Ptr)
    (hg : GameInv wall W H g) (hr : tickBody keys g p = some g1) : GameInv wall W H g1 := by
  by_cases hdead : (g.players p).dead = true
  · rw [tickBody_dead keys g p hdead] at hr
    rw [← Option.some.inj hr]; exact hg
  · have hd : (g.players p).dead = false := by
      cases h : (g.players p).dead with
      | true => exact absurd h hdead
      | false => rfl
    let d1 := steer keys (g.players p).d
    let G1 := g.modifyPlayer p (fun pl => { pl with d := d1, x := moveX d1 pl.x, y := moveY d1 pl.y })
    have hG1p : G1.players p =
        { g.players p with d := d1, x := moveX d1 (g.players p).x,
                           y := moveY d1 (g.players p).y } := by
      simp [G1, Game.modifyPlayer]
    have hG1q : ∀ q, q ≠ p → G1.players q = g.players q := by
      intro q hq; simp [G1, Game.modifyPlayer, hq]
    have hstep : tickBody keys g p =
        (match Board.get G1.board (G1.players p).x (G1.players p).y with
        | none => none
        | some id =>
          if id ≠ blank then
            some { (creditKill G1 p id).modifyPlayer p (fun pl => { pl with dead := true }) with
              spawned := p :: ((creditKill G1 p id).modifyPlayer p
                (fun pl => { pl with dead := true })).spawned }
          else
            match Board.set G1.board (G1.players p).x (G1.players p).y (G1.players p).id with
            | none => none
            | some b => some { G1 with board := b }) := by
      unfold tickBody
      simp only [hd]
      rfl
    rw [hstep] at hr
    cases hget : Board.get G1.board (G1.players p).x (G1.players p).y with
    | none => rw [hget] at hr; cases hr
    | some c =>
      rw [hget] at hr
      simp only at hr
      by_cases hcb : c = blank
      · simp only [hcb, ne_eq, not_true_eq_false, if_false] at hr
        cases hset : Board.set G1.board (G1.players p).x (G1.players p).y (G1.players p).id with
        | none => rw [hset] at hr; cases hr
        | some b1 =>
          rw [hset] at hr
          rw [← Option.some.inj hr]
          have hgetb : Board.get g.board (G1.players p).x (G1.players p).y = some blank := by
            rw [← hcb]; exact hget
          obtain ⟨hw, hwall, hbw, hbh, hrest⟩ := hg.1
          have hint := interior_of_blank hw hwall hgetb
          have hwb1 : WallBordered wall b1 W H := by
            refine WallBordered.set hw hset ?_
            rw [hgetb]
            intro h1
            exact hwall (Option.some.inj h1).symm
          refine ⟨⟨hwb1, hwall, hbw, hbh, hrest⟩, ?_, ?_⟩
          · intro q
            by_cases hq : q = p
            · subst hq
              show (G1.players q).id ≠ wall
              rw [hG1p]; exact hg.2.1 q
            · show (G1.players q).id ≠ wall
              rw [hG1q q hq]; exact hg.2.1 q
          · intro q hal
            by_cases hq : q = p
            · subst hq
              exact hint
            · have hal2 : (g.players q).dead = false := by
                rw [← hG1q q hq]; exact hal
              have := hg.2.2 q hal2
              unfold InteriorPos at this ⊢
              show 0 < (G1.players q).x ∧ (G1.players q).x + 1 < W ∧
                0 < (G1.players q).y ∧ (G1.players q).y + 1 < H
              rw [hG1q q hq]; exact this
      · simp only [ne_eq, hcb, not_false_eq_true, if_true] at hr
        rw [← Option.some.inj hr]
        obtain ⟨hb, _, hbw, hbh, _, _⟩ := creditKill_fields G1 p c
        refine GameInv.of_players hg hb hbw hbh ?_
        intro q
        obtain ⟨_, hcd, _, hcx, hcy, hcid⟩ := creditKill_players G1 p c q
        by_cases hq : q = p
        · subst hq
          refine ⟨?_, ?_⟩
          · show ((Function.update (creditKill G1 q c).players q _) q).id = _
            simp only [Function.update_same]
            rw [hcid, hG1p]
          · intro hal
            have : ((Function.update (creditKill G1 q c).players q
                { (creditKill G1 q c).players q with dead := true }) q).dead = false := hal
            simp at this
        · refine ⟨?_, ?_⟩
          · show ((Function.update (creditKill G1 p c).players p _) q).id = _
            rw [Function.update_noteq hq, hcid, hG1q q hq]
          · intro hal
            have hal1 : ((Function.update (creditKill G1 p c).players p
                { (creditKill G1 p c).players p with dead := true }) q).dead = false := hal
            rw [Function.update_noteq hq, hcd, hG1q q hq] at hal1
            have := hg.2.2 q hal1
            unfold InteriorPos at this ⊢
            show 0 < ((Function.update (creditKill G1 p c).players p _) q).x ∧
              ((Function.update (creditKill G1 p c).players p _) q).x + 1 < W ∧
              0 < ((Function.update (creditKill G1 p c).players p _) q).y ∧
              ((Function.update (creditKill G1 p c).players p _) q).y + 1 < H
            rw [Function.update_noteq hq, hcx, hcy, hG1q q hq]
            exact this

theorem death_eq_parts (g : Game) (p : Ptr) :
    (death g p).map (fun r => r.1) =
      (removeSweep (deathBegin g p) p).map (fun g2 => removeEnd g2 p) := by
  unfold death remove removeSweep deathBegin removeEnd
  cases hs : sweep ((g.modifyPlayer p
      (fun pl => { pl with Deaths := wrapInt (pl.Deaths + 1) })).modifyPlayer
      p (fun pl => { pl with waiting := true })) p with
  | none => simp [hs]
  | some b => simp [hs]

theorem removeSweep_inv {wall : ID} {W H : Nat} {g g1 : Game} (p : Ptr)
    (hg : GameInv wall W H g) (hr : removeSweep g p = some g1) : GameInv wall W H g1 := by
  unfold removeSweep at hr
  cases hs : sweep g p with
  | none => rw [hs] at hr; cases hr
  | some b =>
    rw [hs] at hr
    rw [← Option.some.inj hr]
    obtain ⟨⟨hw, hrest⟩, hid, hpos⟩ := hg
    exact ⟨⟨sweep_wallBordered g p W H b (hid p) hs hw, hrest⟩, hid, hpos⟩

theorem step_inv {wall : ID} {W H : Nat} {g g1 : Game} (hg : GameInv wall W H g)
    (hs : Step g g1) : GameInv wall W H g1 := by
  cases hs with
  | addPlayer draws loaded _ _ p h => exact addPlayer_inv draws loaded p hg h
  | respawn draws _ _ tr p h => exact respawn_inv draws p tr hg h
  | tick keys _ _ p h => exact tickBody_inv keys p hg h
  | deathBegin _ p =>
    unfold deathBegin
    apply GameInv.modify_flags
    · apply GameInv.modify_flags hg
      intro pl; exact ⟨rfl, rfl, rfl, rfl⟩
    · intro pl; exact ⟨rfl, rfl, rfl, rfl⟩
  | removeSweep _ _ p h => exact removeSweep_inv p hg h
  | removeEnd _ p =>
    unfold removeEnd
    apply GameInv.modify_flags hg
    intro pl; exact ⟨rfl, rfl, rfl, rfl⟩

theorem reachable_inv {wall : ID} {W H : Nat} {g0 g : Game} (hg : GameInv wall W H g0)
    (hr : Reachable g0 g) : GameInv wall W H g := by
  induction hr with
  | init => exact hg
  | step g g1 _ hs ih => exact step_inv ih hs

theorem respawn_keeps_board (draws : Nat → Nat) (g g1 : Game) (p : Ptr) (tr : List Nat)
    (hr : respawn draws g p = some (g1, tr)) : g1.board = g.board := by
  unfold respawn at hr
  by_cases hd : (g.players p).dead = false
  · simp only [hd, if_true] at hr
    rw [← (Prod.mk.inj (Option.some.inj hr)).1]
  · simp only [hd, if_false] at hr
    exact respawn_board draws p _ _ _ _ _ hr

theorem arenaB_reachable : Reachable arena arenaB := by
  refine Reachable.step arena arenaB Reachable.init
    (Step.addPlayer (cycle3 4 4 2) none arena arenaB 1 ?_)
  cases h : AddPlayer (cycle3 4 4 2) none arena 1 with
  | none =>
    have h2 : (AddPlayer (cycle3 4 4 2) none arena 1).isSome = true := by decide
    rw [h] at h2
    cases h2
  | some v => simp [arenaB, h]

theorem arenaB1_reachable : Reachable arena arenaB1 := by
  refine Reachable.step arenaB arenaB1 arenaB_reachable (Step.tick noKeys arenaB arenaB1 1 ?_)
  cases h : tickBody noKeys arenaB 1 with
  | none =>
    have h2 : (tickBody noKeys arenaB 1).isSome = true := by decide
    rw [h] at h2
    cases h2
  | some v => simp [arenaB1, h]

theorem arena_inv : GameInv 255 32 32 arena := by
  refine ⟨by decide, ?_, ?_⟩
  · intro q
    intro hc
    have h2 : (q : Nat) % 6 + 1 = (255 : Nat) := hc
    have h3 : (q : Nat) % 6 < 6 := Nat.mod_lt _ (by decide)
    rw [Nat.succ_inj'] at h2
    rw [h2] at h3
    exact absurd h3 (by decide)
  · intro q h
    have : (arena.players q).dead = true := rfl
    rw [this] at h
    cases h

set_option maxRecDepth 1000000 in
/-- C6, as stated, fails: `arenaB` is reached from the walled arena by
`AddPlayer`, whose respawn succeeds; the player (identifier 2) is alive at
(5, 5), yet the cell (5, 5) is blank, not owned by it; and after its first
move, to (6, 5), the cell (5, 5) it started from is still blank. -/
theorem respawn_leaves_start_cell_blank :
    (Reachable arena arenaB ∧ (arenaB.players 1).dead = false ∧
        arenaB.posOf 1 = (5, 5, 67) ∧ (arenaB.players 1).id = 2 ∧
        Board.get arenaB.board 5 5 = some blank) ∧
      (Reachable arena arenaB1 ∧ (arenaB1.players 1).dead = false ∧
        arenaB1.posOf 1 = (6, 5, 67) ∧ Board.get arenaB1.board 6 5 = some 2 ∧
        Board.get arenaB1.board 5 5 = some blank) := by
  refine ⟨⟨arenaB_reachable, by decide, by decide, by decide, by decide⟩,
    ⟨arenaB1_reachable, by decide, by decide, by decide, by decide⟩⟩

/-- C6, amended: in every state reachable from a wall-bordered game (no
player object identified by the wall value) through `AddPlayer`, `respawn`,
the loop body of `tick` and the parts of the `death` goroutine, the board is
still wall-bordered and every alive player stands on an interior cell, so at
a valid board coordinate; `respawn` never writes the board, so the cell a
player respawns on is not claimed by the respawn. -/
theorem reachable_alive_inside (wall : ID) (g0 g : Game) (W H : Nat)
    (h0 : GameInv wall W H g0) (hr : Reachable g0 g) :
    WallBordered wall g.board W H ∧
      (∀ q, (g.players q).dead = false →
        InteriorPos g q W H ∧
          ∃ c, Board.get g.board (g.players q).x (g.players q).y = some c) ∧
      (∀ draws q g1 tr, respawn draws g q = some (g1, tr) → g1.board = g.board) := by
  have hinv := reachable_inv h0 hr
  refine ⟨hinv.1.1, ?_, ?_⟩
  · intro q hq
    have hpos := hinv.2.2 q hq
    refine ⟨hpos, ?_⟩
    unfold InteriorPos at hpos
    exact Board.get_isSome_of_lt hinv.1.1.1 (by omega) (by omega)
  · intro draws q g1 tr h
    exact respawn_keeps_board draws g g1 q tr h

theorem reachable_alive_inside_witness :
    WallBordered 255 arenaB.board 32 32 ∧
      (∀ q, (arenaB.players q).dead = false →
        InteriorPos arenaB q 32 32 ∧
          ∃ c, Board.get arenaB.board (arenaB.players q).x (arenaB.players q).y = some c) ∧
      (∀ draws q g1 tr, respawn draws arenaB q = some (g1, tr) → g1.board = arenaB.board) :=
  reachable_alive_inside 255 arena arenaB 32 32 arena_inv arenaB_reachable

theorem Board.get_set {b b1 : Board} {x y : Nat} {v : ID} (h : Board.set b x y v = some b1)
    (a c : Nat) : Board.get b1 a c = if a = x ∧ c = y then some v else Board.get b a c := by
  by_cases hxy : a = x ∧ c = y
  · obtain ⟨rfl, rfl⟩ := hxy
    simp [Board.get_set_same h]
  · rw [if_neg hxy]
    exact Board.get_set_other h a c (by tauto)

theorem wallRow_spec (wall : ID) (b : Board) (W H k : Nat) (hd : Board.hasDims b W H)
    (hk : k < W) (hH : 1 ≤ H) :
    ∃ b2, wallRow wall (H : Int) k b = some b2 ∧ Board.hasDims b2 W H ∧
      ∀ a c, Board.get b2 a c =
        if a = k ∧ (c = 0 ∨ c + 1 = H) then some wall else Board.get b a c := by
  obtain ⟨b1, hb1⟩ := Board.set_isSome_of_lt hd hk (show 0 < H by omega) wall
  have hb1d := Board.set_hasDims hb1 hd
  obtain ⟨b2, hb2⟩ := Board.set_isSome_of_lt hb1d hk (show H - 1 < H by omega) wall
  refine ⟨b2, ?_, Board.set_hasDims hb2 hb1d, ?_⟩
  · unfold wallRow
    have e0 : Board.setI b (k : Int) 0 wall = some b1 := by
      have := setI_natCast b k 0 wall
      simp only [Nat.cast_zero] at this
      rw [this, hb1]
    have e1 : Board.setI b1 (k : Int) ((H : Int) - 1) wall = some b2 := by
      have := setI_natCast b1 k (H - 1) wall
      have hc : (((H - 1 : Nat)) : Int) = (H : Int) - 1 := by omega
      rw [hc] at this
      rw [this, hb2]
    simp [e0, e1]
  · intro a c
    rw [Board.get_set hb2 a c, Board.get_set hb1 a c]
    by_cases h1 : a = k ∧ c = H - 1
    · have : a = k ∧ (c = 0 ∨ c + 1 = H) := ⟨h1.1, Or.inr (by omega)⟩
      rw [if_pos h1, if_pos this]
    · by_cases h2 : a = k ∧ c = 0
      · have : a = k ∧ (c = 0 ∨ c + 1 = H) := ⟨h2.1, Or.inl h2.2⟩
        rw [if_neg h1, if_pos h2, if_pos this]
      · have : ¬ (a = k ∧ (c = 0 ∨ c + 1 = H)) := by
          rintro ⟨ha, hc | hc⟩
          · exact h2 ⟨ha, hc⟩
          · exact h1 ⟨ha, by omega⟩
        rw [if_neg h1, if_neg h2, if_neg this]

theorem wallCol_spec (wall : ID) (b : Board) (W H k : Nat) (hd : Board.hasDims b W H)
    (hk : k < H) (hW : 1 ≤ W) :
    ∃ b2, wallCol wall (W : Int) k b = some b2 ∧ Board.hasDims b2 W H ∧
      ∀ a c, Board.get b2 a c =
        if c = k ∧ (a = 0 ∨ a + 1 = W) then some wall else Board.get b a c := by
  obtain ⟨b1, hb1⟩ := Board.set_isSome_of_lt hd (show 0 < W by omega) hk wall
  have hb1d := Board.set_hasDims hb1 hd
  obtain ⟨b2, hb2⟩ := Board.set_isSome_of_lt hb1d (show W - 1 < W by omega) hk wall
  refine ⟨b2, ?_, Board.set_hasDims hb2 hb1d, ?_⟩
  · unfold wallCol
    have e0 : Board.setI b 0 (k : Int) wall = some b1 := by
      have := setI_natCast b 0 k wall
      simp only [Nat.cast_zero] at this
      rw [this, hb1]
    have e1 : Board.setI b1 ((W : Int) - 1) (k : Int) wall = some b2 := by
      have := setI_natCast b1 (W - 1) k wall
      have hc : (((W - 1 : Nat)) : Int) = (W : Int) - 1 := by omega
      rw [hc] at this
      rw [this, hb2]
    simp [e0, e1]
  · intro a c
    rw [Board.get_set hb2 a c, Board.get_set hb1 a c]
    by_cases h1 : a = W - 1 ∧ c = k
    · have : c = k ∧ (a = 0 ∨ a + 1 = W) := ⟨h1.2, Or.inr (by omega)⟩
      rw [if_pos h1, if_pos this]
    · by_cases h2 : a = 0 ∧ c = k
      · have : c = k ∧ (a = 0 ∨ a + 1 = W) := ⟨h2.2, Or.inl h2.1⟩
        rw [if_neg h1, if_pos h2, if_pos this]
      · have : ¬ (c = k ∧ (a = 0 ∨ a + 1 = W)) := by
          rintro ⟨hc, ha | ha⟩
          · exact h2 ⟨ha, hc⟩
          · exact h1 ⟨by omega, hc⟩
        rw [if_neg h1, if_neg h2, if_neg this]

theorem Play_builds_walls (wall : ID) (g : Game) (W H : Nat) (hd : Board.hasDims g.board W H)
    (hW : 1 ≤ W) (hH : 1 ≤ H) (hbw : g.bw = (W : Int)) (hbh : g.bh = (H : Int)) :
    ∃ g1, Play wall g = some g1 ∧ g1.bw = g.bw ∧ g1.bh = g.bh ∧ g1.players = g.players ∧
      WallBordered wall g1.board W H ∧
      ∀ x < W, ∀ y < H, (0 < x ∧ x + 1 < W ∧ 0 < y ∧ y + 1 < H) →
        Board.get g1.board x y = Board.get g.board x y := by
  have hWn : g.bw.toNat = W := by rw [hbw]; simp
  have hHn : g.bh.toNat = H := by rw [hbh]; simp
  obtain ⟨b1, hb1, hd1, hP1⟩ := forLoop_total (wallRow wall (H : Int))
    (fun k b => Board.hasDims b W H ∧ ∀ a c, Board.get b a c =
      if a < k ∧ (c = 0 ∨ c + 1 = H) then some wall else Board.get g.board a c)
    W 0 g.board ⟨hd, by intro a c; simp⟩ (by
      intro k b _ hk hb
      obtain ⟨b2, hb2, hd2, hg2⟩ := wallRow_spec wall b W H k hb.1 (by omega) hH
      refine ⟨b2, hb2, hd2, ?_⟩
      intro a c
      rw [hg2 a c, hb.2 a c]
      by_cases h1 : a = k ∧ (c = 0 ∨ c + 1 = H)
      · have : a < k + 1 ∧ (c = 0 ∨ c + 1 = H) := ⟨by omega, h1.2⟩
        rw [if_pos h1, if_pos this]
      · rw [if_neg h1]
        by_cases h2 : a < k ∧ (c = 0 ∨ c + 1 = H)
        · have : a < k + 1 ∧ (c = 0 ∨ c + 1 = H) := ⟨by omega, h2.2⟩
          rw [if_pos h2, if_pos this]
        · have : ¬ (a < k + 1 ∧ (c = 0 ∨ c + 1 = H)) := by
            rintro ⟨ha, hc⟩
            by_cases hak : a = k
            · exact h1 ⟨hak, hc⟩
            · exact h2 ⟨by omega, hc⟩
          rw [if_neg h2, if_neg this])
  obtain ⟨b2, hb2, hd2, hP2⟩ := forLoop_total (wallCol wall (W : Int))
    (fun k b => Board.hasDims b W H ∧ ∀ a c, Board.get b a c =
      if c < k ∧ (a = 0 ∨ a + 1 = W) then some wall else Board.get b1 a c)
    H 0 b1 ⟨hd1, by intro a c; simp⟩ (by
      intro k b _ hk hb
      obtain ⟨b3, hb3, hd3, hg3⟩ := wallCol_spec wall b W H k hb.1 (by omega) hW
      refine ⟨b3, hb3, hd3, ?_⟩
      intro a c
      rw [hg3 a c, hb.2 a c]
      by_cases h1 : c = k ∧ (a = 0 ∨ a + 1 = W)
      · have : c < k + 1 ∧ (a = 0 ∨ a + 1 = W) := ⟨by omega, h1.2⟩
        rw [if_pos h1, if_pos this]
      · rw [if_neg h1]
        by_cases h2 : c < k ∧ (a = 0 ∨ a + 1 = W)
        · have : c < k + 1 ∧ (a = 0 ∨ a + 1 = W) := ⟨by omega, h2.2⟩
          rw [if_pos h2, if_pos this]
        · have : ¬ (c < k + 1 ∧ (a = 0 ∨ a + 1 = W)) := by
            rintro ⟨hc, ha⟩
            by_cases hck : c = k
            · exact h1 ⟨hck, ha⟩
            · exact h2 ⟨by omega, ha⟩
          rw [if_neg h2, if_neg this])
  simp only [Nat.zero_add] at hP1 hP2 hb1 hb2
  have e : Play wall g = some { g with board := b2 } := by
    unfold Play
    rw [hWn, hHn, hbh, hbw, hb1]
    simp only
    rw [hb2]
  refine ⟨_, e, rfl, rfl, rfl, ⟨hd2, ?_⟩, ?_⟩
  · intro x hx y hy hborder
    show Board.get b2 x y = some wall
    rw [hP2 x y, hP1 x y]
    by_cases h2 : y < H ∧ (x = 0 ∨ x + 1 = W)
    · rw [if_pos h2]
    · have h1 : x < W ∧ (y = 0 ∨ y + 1 = H) := by
        refine ⟨hx, ?_⟩
        rcases hborder with h | h | h | h
        · exact absurd ⟨hy, Or.inl h⟩ h2
        · exact absurd ⟨hy, Or.inr h⟩ h2
        · exact Or.inl h
        · exact Or.inr h
      rw [if_neg h2, if_pos h1]
  · intro x hx y hy hint
    show Board.get b2 x y = Board.get g.board x y
    rw [hP2 x y, hP1 x y]
    have h2 : ¬ (y < H ∧ (x = 0 ∨ x + 1 = W)) := by omega
    have h1 : ¬ (x < W ∧ (y = 0 ∨ y + 1 = H)) := by omega
    rw [if_neg h2, if_neg h1]

theorem NewGame_Play_square (wall : ID) (c : Config) (env : Env) (heap : Ptr → Player)
    (g : Game) (h : NewGame c env heap = Except.ok g) (hsq : c.Width = c.Height) :
    ∃ g1, Play wall g = some g1 ∧
      WallBordered wall g1.board c.Width.toNat c.Height.toNat ∧
      InteriorBlank g1.board c.Width.toNat c.Height.toNat := by
  obtain ⟨h1, h2, h3, h4, hd, hbw, hbh, hblank⟩ := NewGame_board_dims c env heap g h
  obtain ⟨g1, hg1, _, _, _, hwb, hint⟩ := Play_builds_walls wall g c.Width.toNat c.Height.toNat hd
    (by omega) (by omega) (by rw [hbw]; omega) (by rw [hbh]; omega)
  refine ⟨g1, hg1, hwb, ?_⟩
  intro x hx y hy hxy
  rw [hint x hx y hy hxy]
  exact hblank x hx y hy

end Tron
